import Mathlib

/-!
Verification of `gcf_downloader.py`.

The program is shallowly embedded: Python strings become `List Char`, byte
strings become `List Nat`, the filesystem becomes a map from paths to file
contents, and the network becomes an explicit `World` of responses.  Every
definition is transcribed from the source file (or, for the calls into the
Python standard library `urllib.parse`, from the CPython 3.11 source of the
functions the program calls), never from the specification's words; the only
spec-side definitions are clearly marked as such and are used to compare the
code against the specification.
-/

namespace GCFD

/-- The characters of a Lean string literal; used to transcribe Python string
literals into the `List Char` representation. -/
def strL (s : String) : List Char := s.data

/-! ## Python string primitives

Transcriptions of the Python `str` operations the program (and the parts of
`urllib.parse` it calls) uses, over `List Char`. -/

/-- Python `s.split(sep)` for a one-character separator: splits at every
occurrence of `sep`, keeping empty pieces, and returns `[s]` (one piece) when
`sep` does not occur.  `''.split(sep) = ['']`. -/
def pySplit (sep : Char) : List Char → List (List Char)
  | [] => [[]]
  | c :: rest =>
    if c = sep then [] :: pySplit sep rest
    else
      match pySplit sep rest with
      | [] => [[c]]
      | p :: ps => (c :: p) :: ps

/-- Python `sep.join(pieces)` for a one-character separator. -/
def pyJoin (sep : Char) : List (List Char) → List Char
  | [] => []
  | [x] => x
  | x :: y :: ys => x ++ sep :: pyJoin sep (y :: ys)

/-- The characters stripped by `str.strip()` with no arguments: the full set
for which `Py_UNICODE_ISSPACE` holds under CPython 3.11 (the ASCII whitespace
`\t\n\v\f\r` and space, the C1 controls `\x1c`-`\x1f`, `\x85`, `\xa0`, and
the Unicode space separators U+1680, U+2000-U+200A, U+2028, U+2029, U+202F,
U+205F, U+3000). -/
def pySpace (c : Char) : Bool :=
  decide ((9 ≤ c.toNat ∧ c.toNat ≤ 13) ∨ (28 ≤ c.toNat ∧ c.toNat ≤ 32) ∨
    c.toNat = 133 ∨ c.toNat = 160 ∨ c.toNat = 5760 ∨
    (8192 ≤ c.toNat ∧ c.toNat ≤ 8202) ∨ c.toNat = 8232 ∨ c.toNat = 8233 ∨
    c.toNat = 8239 ∨ c.toNat = 8287 ∨ c.toNat = 12288)

/-- Python `s.strip()`. -/
def pyStrip (l : List Char) : List Char :=
  ((l.dropWhile pySpace).reverse.dropWhile pySpace).reverse

/-! ## The identifier parser (`extract_triplets`, lines 20-27)

```
def extract_triplets(gcf_number):
    match = re.search(r'GCF_(\d+)\.', gcf_number)
    if not match:
        print(f"Invalid GCF number format: ...")
        return None
    digits = match.group(1)
    triplets = [digits[i:i+3] for i in range(0, len(digits), 3)]
    return '/'.join(triplets)
```

The regex `GCF_(\d+)\.` is embedded as follows.  `re.search` scans the match
positions left to right and stops at the first position where the pattern
matches.  At a fixed position the pattern matches exactly when the literal
`GCF_` is present, at least one digit follows, and the *maximal* run of
digits after `GCF_` is immediately followed by `'.'`: the greedy `\d+` first
captures the maximal run and then backtracks, but every shorter capture is
followed by a digit (not `'.'`), so the only capture that can complete the
match is the maximal run itself.

With a `str` pattern, `\d` matches every Unicode decimal digit (category
`Nd`), not only ASCII `0`-`9`: `re.search(r'\d', c)` succeeds for the
fullwidth `'５'` (U+FF15) or the Arabic-Indic `'٥'` (U+0665) just as for
`'5'`.  `pyDigit` below transcribes the exact set of code points the
program's interpreter (CPython 3.11, Unicode 14.0) matches with `\d`, as a
list of inclusive code-point ranges. -/

/-- The literal `GCF_` of the regex. -/
def strGCF : List Char := ['G', 'C', 'F', '_']

/-- The inclusive code-point ranges of the Unicode decimal digits (category
`Nd`): exactly the code points CPython 3.11's `re` matches with `\d` in a
`str` pattern. -/
def ndRanges : List (Nat × Nat) :=
  [(48, 57), (1632, 1641), (1776, 1785), (1984, 1993), (2406, 2415),
   (2534, 2543), (2662, 2671), (2790, 2799), (2918, 2927), (3046, 3055),
   (3174, 3183), (3302, 3311), (3430, 3439), (3558, 3567), (3664, 3673),
   (3792, 3801), (3872, 3881), (4160, 4169), (4240, 4249), (6112, 6121),
   (6160, 6169), (6470, 6479), (6608, 6617), (6784, 6793), (6800, 6809),
   (6992, 7001), (7088, 7097), (7232, 7241), (7248, 7257), (42528, 42537),
   (43216, 43225), (43264, 43273), (43472, 43481), (43504, 43513),
   (43600, 43609), (44016, 44025), (65296, 65305), (66720, 66729),
   (68912, 68921), (69734, 69743), (69872, 69881), (69942, 69951),
   (70096, 70105), (70384, 70393), (70736, 70745), (70864, 70873),
   (71248, 71257), (71360, 71369), (71472, 71481), (71904, 71913),
   (72016, 72025), (72784, 72793), (73040, 73049), (73120, 73129),
   (92768, 92777), (92864, 92873), (93008, 93017), (120782, 120831),
   (123200, 123209), (123632, 123641), (125264, 125273), (130032, 130041)]

/-- The regex class `\d` of a `str` pattern: any Unicode decimal digit. -/
def pyDigit (c : Char) : Bool :=
  ndRanges.any fun p => decide (p.1 ≤ c.toNat ∧ c.toNat ≤ p.2)

/-- Match `GCF_(\d+)\.` at the start of `l`, returning the captured group. -/
def matchGCFAt (l : List Char) : Option (List Char) :=
  if l.take 4 = strGCF then
    let rest := l.drop 4
    let ds := rest.takeWhile pyDigit
    if ds = [] then none
    else if (rest.dropWhile pyDigit).take 1 = ['.'] then some ds else none
  else none

/-- `re.search(r'GCF_(\d+)\.', s)`, returning the captured group of the
leftmost match. -/
def reSearchGCF : List Char → Option (List Char)
  | [] => none
  | c :: rest =>
    match matchGCFAt (c :: rest) with
    | some ds => some ds
    | none => reSearchGCF rest

/-- Python `range(i, stop, 3)`, with an explicit structural fuel so that the
kernel can evaluate it; `stop - i` steps always suffice since `i` grows by 3
each step. -/
def pyRange3Fuel : Nat → Nat → Nat → List Nat
  | 0, _, _ => []
  | fuel + 1, i, stop => if i < stop then i :: pyRange3Fuel fuel (i + 3) stop else []

/-- Python `range(i, stop, 3)`. -/
def pyRange3 (i stop : Nat) : List Nat := pyRange3Fuel (stop - i) i stop

/-- The list comprehension `[digits[i:i+3] for i in range(0, len(digits), 3)]`
(line 26). -/
def triplets_of (digits : List Char) : List (List Char) :=
  (pyRange3 0 digits.length).map fun i => (digits.drop i).take 3

/-- `extract_triplets` (lines 20-27).  Returns `none` where Python returns
`None`; the `print` on the failure path is modelled at the call site in
`download_genome`, the only caller. -/
def extract_triplets (gcf_number : List Char) : Option (List Char) :=
  match reSearchGCF gcf_number with
  | none => none
  | some digits => some (pyJoin '/' (triplets_of digits))

/-! ## Spec-side definitions for claim C1 -/

/-- Spec-side chunking: the digit string split into consecutive 3-character
chunks in order, the final chunk possibly shorter than 3 characters.  Written
independently of the source's `range`-based comprehension; the two are proved
equal. -/
def chunks3Spec : List Char → List (List Char)
  | [] => []
  | [c] => [[c]]
  | [c, d] => [[c, d]]
  | c :: d :: e :: rest => [c, d, e] :: chunks3Spec rest

/-! ## Basic lemmas about the string primitives -/

theorem takeWhile_append_all {p : Char → Bool} {l₁ l₂ : List Char}
    (h : ∀ a ∈ l₁, p a) :
    (l₁ ++ l₂).takeWhile p = l₁ ++ l₂.takeWhile p := by
  induction l₁ with
  | nil => simp
  | cons a l ih =>
    have ha : p a := h a (List.mem_cons_self a l)
    simp only [List.cons_append, List.takeWhile_cons, ha, if_true]
    rw [ih fun b hb => h b (List.mem_cons_of_mem a hb)]

theorem dropWhile_append_all {p : Char → Bool} {l₁ l₂ : List Char}
    (h : ∀ a ∈ l₁, p a) :
    (l₁ ++ l₂).dropWhile p = l₂.dropWhile p := by
  induction l₁ with
  | nil => simp
  | cons a l ih =>
    have ha : p a := h a (List.mem_cons_self a l)
    simp only [List.cons_append, List.dropWhile_cons, ha, if_true]
    exact ih fun b hb => h b (List.mem_cons_of_mem a hb)

theorem takeWhile_cons_neg {p : Char → Bool} {a : Char} {l : List Char}
    (h : ¬ p a) : (a :: l).takeWhile p = [] := by
  simp [List.takeWhile_cons, h]

theorem dropWhile_cons_neg {p : Char → Bool} {a : Char} {l : List Char}
    (h : ¬ p a) : (a :: l).dropWhile p = a :: l := by
  simp [List.dropWhile_cons, h]

theorem takeWhile_all {p : Char → Bool} {l : List Char}
    (h : ∀ a ∈ l, p a) : l.takeWhile p = l := by
  have h2 := @takeWhile_append_all p l [] h
  simpa using h2

theorem mem_of_mem_takeWhile {p : Char → Bool} {l : List Char} {a : Char}
    (h : a ∈ l.takeWhile p) : p a := by
  induction l with
  | nil => simp [List.takeWhile] at h
  | cons b l ih =>
    by_cases hb : p b
    · rw [List.takeWhile_cons, if_pos hb] at h
      rcases List.mem_cons.mp h with h1 | h2
      · exact h1 ▸ hb
      · exact ih h2
    · rw [takeWhile_cons_neg hb] at h
      exact absurd h (List.not_mem_nil a)

/-! ## Lemmas about the parser -/

/-- An ASCII digit is a Unicode decimal digit (the first range of the
table). -/
theorem isDigit_pyDigit {c : Char} (h : c.isDigit) : pyDigit c := by
  have hb : 48 ≤ c.toNat ∧ c.toNat ≤ 57 := by
    simp only [Char.isDigit, Bool.and_eq_true, decide_eq_true_eq] at h
    exact h
  simp only [pyDigit, ndRanges, List.any_cons, List.any_nil,
    Bool.or_eq_true, decide_eq_true_eq]
  exact Or.inl hb

theorem takeWhile_digits {ds v : List Char} (hdig : ∀ c ∈ ds, pyDigit c) :
    (ds ++ '.' :: v).takeWhile pyDigit = ds := by
  rw [takeWhile_append_all hdig, takeWhile_cons_neg (by decide)]
  simp

theorem dropWhile_digits {ds v : List Char} (hdig : ∀ c ∈ ds, pyDigit c) :
    (ds ++ '.' :: v).dropWhile pyDigit = '.' :: v := by
  rw [dropWhile_append_all hdig, dropWhile_cons_neg (by decide)]

/-- The regex matches a well-formed tail `GCF_<digits>.<rest>` at the start,
capturing exactly the digit block. -/
theorem matchGCFAt_wellformed {ds v : List Char} (hne : ds ≠ [])
    (hdig : ∀ c ∈ ds, pyDigit c) :
    matchGCFAt (strGCF ++ ds ++ '.' :: v) = some ds := by
  have htake : (strGCF ++ ds ++ '.' :: v).take 4 = strGCF := by
    have : strGCF ++ ds ++ '.' :: v = strGCF ++ (ds ++ '.' :: v) := by simp
    rw [this]
    rw [show (4 : Nat) = strGCF.length from rfl, List.take_left]
  unfold matchGCFAt
  rw [if_pos htake]
  have hdrop : (strGCF ++ ds ++ '.' :: v).drop 4 = ds ++ '.' :: v := by
    have : strGCF ++ ds ++ '.' :: v = strGCF ++ (ds ++ '.' :: v) := by simp
    rw [this]
    rw [show (4 : Nat) = strGCF.length from rfl, List.drop_left]
  simp only [hdrop, takeWhile_digits hdig, dropWhile_digits hdig]
  simp [hne]

/-- Inversion of a successful match. -/
theorem matchGCFAt_some {l ds : List Char} (h : matchGCFAt l = some ds) :
    l.take 4 = strGCF ∧ ds = (l.drop 4).takeWhile pyDigit ∧ ds ≠ [] ∧
      ((l.drop 4).dropWhile pyDigit).take 1 = ['.'] := by
  unfold matchGCFAt at h
  by_cases h4 : l.take 4 = strGCF
  · rw [if_pos h4] at h
    by_cases he : (l.drop 4).takeWhile pyDigit = []
    · rw [if_pos he] at h; exact absurd h (by simp)
    · rw [if_neg he] at h
      by_cases hd : ((l.drop 4).dropWhile pyDigit).take 1 = ['.']
      · rw [if_pos hd] at h
        exact ⟨h4, (Option.some_injective _ h).symm, by
          rw [← (Option.some_injective _ h)]; exact he, hd⟩
      · rw [if_neg hd] at h; exact absurd h (by simp)
  · rw [if_neg h4] at h; exact absurd h (by simp)

/-- The shape the parser accepts (claim C9): somewhere in the string, the
literal `GCF_`, then one or more Unicode decimal digits, then a dot. -/
def gcfShape (s : List Char) : Prop :=
  ∃ pre ds post, s = pre ++ strGCF ++ ds ++ '.' :: post ∧ ds ≠ [] ∧
    ∀ c ∈ ds, pyDigit c

theorem matchGCFAt_shape {l ds : List Char} (h : matchGCFAt l = some ds) :
    ∃ post, l = strGCF ++ ds ++ '.' :: post ∧ ds ≠ [] ∧ ∀ c ∈ ds, pyDigit c := by
  obtain ⟨h4, hds, hne, hdot⟩ := matchGCFAt_some h
  set rest := l.drop 4 with hrest
  have hsplit : rest.takeWhile pyDigit ++ rest.dropWhile pyDigit = rest :=
    List.takeWhile_append_dropWhile _ _
  obtain ⟨post, hpost⟩ : ∃ post, rest.dropWhile pyDigit = '.' :: post := by
    cases hcase : rest.dropWhile pyDigit with
    | nil => rw [hcase] at hdot; exact absurd hdot (by simp)
    | cons a t =>
      rw [hcase] at hdot
      have h1 : (a :: t).take 1 = [a] := rfl
      rw [h1] at hdot
      injection hdot with ha _
      exact ⟨t, by rw [ha]⟩
  refine ⟨post, ?_, hne, ?_⟩
  · have hl : l = l.take 4 ++ l.drop 4 := (List.take_append_drop 4 l).symm
    rw [hl, h4, ← hrest, ← hsplit, ← hds, hpost]
    simp
  · intro c hc
    rw [hds] at hc
    exact mem_of_mem_takeWhile hc

/-- A successful leftmost search yields a decomposition of the string. -/
theorem reSearchGCF_some_shape {s ds : List Char} (h : reSearchGCF s = some ds) :
    gcfShape s := by
  induction s with
  | nil => exact absurd h (by simp [reSearchGCF])
  | cons c rest ih =>
    rw [reSearchGCF] at h
    cases hm : matchGCFAt (c :: rest) with
    | some ds' =>
      rw [hm] at h
      obtain ⟨post, hp, hne, hdig⟩ := matchGCFAt_shape hm
      have hds : ds' = ds := by simpa using h
      exact ⟨[], ds, post, by rw [← hds]; simpa using hp, hds ▸ hne, hds ▸ hdig⟩
    | none =>
      rw [hm] at h
      obtain ⟨pre, ds', post, hp, hne, hdig⟩ := ih h
      exact ⟨c :: pre, ds', post, by rw [hp]; simp, hne, hdig⟩

theorem reSearchGCF_isSome_of_matchAt {s₀ : List Char} (pre : List Char)
    (h : (matchGCFAt s₀).isSome) : (reSearchGCF (pre ++ s₀)).isSome := by
  induction pre with
  | nil =>
    cases s₀ with
    | nil => simp [matchGCFAt, strGCF] at h
    | cons c t =>
      rw [List.nil_append, reSearchGCF]
      cases hm : matchGCFAt (c :: t) with
      | some ds => simp
      | none => rw [hm] at h; simp at h
  | cons c pre ih =>
    rw [List.cons_append, reSearchGCF]
    cases hm : matchGCFAt (c :: (pre ++ s₀)) with
    | some ds => simp
    | none => exact ih

/-- The parser's acceptance condition, both directions. -/
theorem extract_triplets_isSome_iff (s : List Char) :
    (extract_triplets s).isSome ↔ gcfShape s := by
  constructor
  · intro h
    unfold extract_triplets at h
    cases hs : reSearchGCF s with
    | none => rw [hs] at h; simp at h
    | some ds => exact reSearchGCF_some_shape hs
  · rintro ⟨pre, ds, post, hp, hne, hdig⟩
    have hm : matchGCFAt (strGCF ++ ds ++ '.' :: post) = some ds :=
      matchGCFAt_wellformed hne hdig
    have : (reSearchGCF s).isSome := by
      rw [hp]
      have := @reSearchGCF_isSome_of_matchAt (strGCF ++ ds ++ '.' :: post) pre
        (by rw [hm]; simp)
      simpa using this
    unfold extract_triplets
    cases hs : reSearchGCF s with
    | none => rw [hs] at this; simp at this
    | some ds' => simp

/-! ## The grouped path equals the spec-side chunking (claim C1) -/

theorem pyRange3Fuel_congr : ∀ (f₁ f₂ i stop : Nat), stop - i ≤ f₁ → stop - i ≤ f₂ →
    pyRange3Fuel f₁ i stop = pyRange3Fuel f₂ i stop
  | 0, 0, _, _, _, _ => rfl
  | 0, f₂ + 1, i, stop, h₁, _ => by
    simp only [pyRange3Fuel]
    rw [if_neg (by omega)]
  | f₁ + 1, 0, i, stop, _, h₂ => by
    simp only [pyRange3Fuel]
    rw [if_neg (by omega)]
  | f₁ + 1, f₂ + 1, i, stop, h₁, h₂ => by
    simp only [pyRange3Fuel]
    by_cases h : i < stop
    · rw [if_pos h, if_pos h,
        pyRange3Fuel_congr f₁ f₂ (i + 3) stop (by omega) (by omega)]
    · rw [if_neg h, if_neg h]

theorem pyRange3_stop_le {i stop : Nat} (h : stop ≤ i) : pyRange3 i stop = [] := by
  unfold pyRange3
  rw [show stop - i = 0 by omega]
  rfl

theorem pyRange3_lt {i stop : Nat} (h : i < stop) :
    pyRange3 i stop = i :: pyRange3 (i + 3) stop := by
  unfold pyRange3
  obtain ⟨k, hk⟩ : ∃ k, stop - i = k + 1 := ⟨stop - i - 1, by omega⟩
  rw [hk]
  simp only [pyRange3Fuel, if_pos h]
  rw [pyRange3Fuel_congr k (stop - (i + 3)) (i + 3) stop (by omega) (by omega)]

theorem pyRange3_add3 (i stop : Nat) :
    pyRange3 (i + 3) (stop + 3) = (pyRange3 i stop).map (· + 3) := by
  by_cases h : i < stop
  · rw [pyRange3_lt (by omega : i + 3 < stop + 3), pyRange3_lt h, List.map_cons]
    exact congrArg (List.cons (i + 3)) (pyRange3_add3 (i + 3) stop)
  · rw [pyRange3_stop_le (by omega), pyRange3_stop_le (by omega), List.map_nil]
termination_by stop - i
decreasing_by omega

/-- The source's `range`-based grouping coincides with the spec-side
3-chunking. -/
theorem triplets_of_eq (ds : List Char) : triplets_of ds = chunks3Spec ds := by
  induction ds using chunks3Spec.induct with
  | case1 => rfl
  | case2 c => rfl
  | case3 c d => rfl
  | case4 c d e rest ih =>
    rw [chunks3Spec]
    unfold triplets_of
    rw [show (c :: d :: e :: rest).length = rest.length + 3 by simp,
      pyRange3_lt (by omega), List.map_cons]
    congr 1
    have h := pyRange3_add3 0 rest.length
    rw [show (0 : Nat) + 3 = 3 from rfl] at h
    rw [h, List.map_map, ← ih]
    unfold triplets_of
    refine List.map_congr_left ?_
    intro i hi
    rfl

/-- Claim C1: for every well-formed identifier `GCF_<digits>.<version>`, the
parser's derived grouped path equals the digit string split into consecutive
3-character chunks in order, joined by '/', with the final chunk possibly
shorter than 3 characters. -/
theorem c1_grouped_path (ds v : List Char) (hne : ds ≠ [])
    (hdig : ∀ c ∈ ds, c.isDigit) :
    extract_triplets (strGCF ++ ds ++ '.' :: v) =
      some (pyJoin '/' (chunks3Spec ds)) := by
  have hm : matchGCFAt ('G' :: 'C' :: 'F' :: '_' :: (ds ++ '.' :: v)) = some ds :=
    matchGCFAt_wellformed hne fun c hc => isDigit_pyDigit (hdig c hc)
  have hs : reSearchGCF (strGCF ++ ds ++ '.' :: v) = some ds := by
    show reSearchGCF ('G' :: ('C' :: 'F' :: '_' :: (ds ++ '.' :: v))) = some ds
    rw [reSearchGCF, hm]
  unfold extract_triplets
  rw [hs]
  show some (pyJoin '/' (triplets_of ds)) = some (pyJoin '/' (chunks3Spec ds))
  rw [triplets_of_eq]

/-- Witness for C1 at the identifier `GCF_000005845.2`. -/
theorem c1_grouped_path_witness :
    extract_triplets (strL "GCF_000005845.2") =
      some (pyJoin '/' (chunks3Spec (strL "000005845"))) := by
  have h := c1_grouped_path (strL "000005845") (strL "2") (by decide) (by decide)
  have he : strGCF ++ strL "000005845" ++ '.' :: strL "2" = strL "GCF_000005845.2" := by
    decide
  rw [he] at h
  exact h

/-! ## urllib.parse (CPython 3.11)

Line 48 of the source computes `genome_url = urljoin(base_url, genome_gz_file)`.
The definitions below transcribe the functions of CPython 3.11's
`urllib/parse.py` that this call reaches: `urljoin`, `urlparse`, `urlsplit`,
`_splitnetloc`, `_splitparams`, `urlunparse`, `urlunsplit`, and the tables
`uses_relative`, `uses_netloc`, `uses_params`, `scheme_chars`.

`urlsplit` can raise `ValueError`; the embedding returns `Except`.  The
mismatched-bracket raise (`'['` in the netloc without `']'`, or conversely) is
transcribed exactly.  Two further netloc checks are not translated in full:
`_check_bracketed_host` (reached only when the netloc contains both `'['` and
`']'`; raises unless the bracketed text is a valid IP literal) and the
non-ASCII NFKC check of `_checknetloc` (reached only for non-ASCII netlocs).
The embedding reports an error for those two netloc classes as well.  No
theorem below depends on the outcome for them: every counterexample uses only
the exactly-transcribed mismatched-bracket raise, and every positive theorem
carries hypotheses under which the netloc is empty or the fixed ASCII host. -/

/-- Error raised by `urlsplit`. -/
inductive PyErr where
  /-- The exact CPython raise `ValueError("Invalid IPv6 URL")` for a netloc
  containing one bracket but not the other. -/
  | invalidIPv6 : PyErr
  /-- A netloc with both brackets, or a non-ASCII netloc: CPython runs checks
  (IP-literal validation, NFKC normalization) that are not translated here. -/
  | unmodelledNetloc : PyErr
deriving DecidableEq

/-- Result of `urlsplit`. -/
structure SplitResult where
  scheme : List Char
  netloc : List Char
  path : List Char
  query : List Char
  fragment : List Char
deriving DecidableEq

/-- Result of `urlparse`. -/
structure ParseResult where
  scheme : List Char
  netloc : List Char
  path : List Char
  params : List Char
  query : List Char
  fragment : List Char
deriving DecidableEq

/-- `scheme_chars` from urllib.parse. -/
def schemeChars : List Char :=
  strL "abcdefghijklmnopqrstuvwxyzABCDEFGHIJKLMNOPQRSTUVWXYZ0123456789+-."

/-- `uses_relative` from urllib.parse. -/
def usesRelative : List (List Char) :=
  [strL "", strL "ftp", strL "http", strL "gopher", strL "nntp", strL "imap",
   strL "wais", strL "file", strL "https", strL "shttp", strL "mms",
   strL "prospero", strL "rtsp", strL "rtsps", strL "rtspu", strL "sftp",
   strL "svn", strL "svn+ssh", strL "ws", strL "wss"]

/-- `uses_netloc` from urllib.parse. -/
def usesNetloc : List (List Char) :=
  [strL "", strL "ftp", strL "http", strL "gopher", strL "nntp", strL "telnet",
   strL "imap", strL "wais", strL "file", strL "mms", strL "https",
   strL "shttp", strL "snews", strL "prospero", strL "rtsp", strL "rtsps",
   strL "rtspu", strL "rsync", strL "svn", strL "svn+ssh", strL "sftp",
   strL "nfs", strL "git", strL "git+ssh", strL "ws", strL "wss"]

/-- `uses_params` from urllib.parse. -/
def usesParams : List (List Char) :=
  [strL "", strL "ftp", strL "hdl", strL "prospero", strL "http", strL "imap",
   strL "https", strL "shttp", strL "rtsp", strL "rtsps", strL "rtspu",
   strL "sip", strL "sips", strL "mms", strL "sftp", strL "tel"]

/-- `_WHATWG_C0_CONTROL_OR_SPACE`: code points up to and including space. -/
def isC0OrSpace (c : Char) : Bool := c.toNat ≤ 32

/-- `_UNSAFE_URL_BYTES_TO_REMOVE`: tab, carriage return, newline. -/
def isUnsafeURLByte (c : Char) : Bool := c == '\t' || c == '\r' || c == '\n'

/-- Python `s.strip(chars)` for a character class `p`. -/
def stripBy (p : Char → Bool) (l : List Char) : List Char :=
  ((l.dropWhile p).reverse.dropWhile p).reverse

/-- Delimiters ending the netloc in `_splitnetloc`. -/
def netDelim (c : Char) : Bool := c == '/' || c == '?' || c == '#'

def notColon (c : Char) : Bool := c != ':'
def notHash (c : Char) : Bool := c != '#'
def notQm (c : Char) : Bool := c != '?'
def notSlash (c : Char) : Bool := c != '/'
def notSemi (c : Char) : Bool := c != ';'

/-- `url[0].isascii() and url[0].isalpha()`: an ASCII letter. -/
def pyAsciiAlpha (c : Char) : Bool := c.toNat < 128 && c.isAlpha

/-- `url.lstrip(_WHATWG_C0_CONTROL_OR_SPACE)`. -/
def pyLstripC0 (l : List Char) : List Char := l.dropWhile isC0OrSpace

/-- The `url.replace(b, "")` loop over `_UNSAFE_URL_BYTES_TO_REMOVE`. -/
def removeUnsafe (l : List Char) : List Char := l.filter fun c => !isUnsafeURLByte c

/-- The scheme-detection step of `urlsplit`: `i = url.find(':')`; when
`i > 0`, `url[0]` is an ASCII letter, and every character of `url[:i]` is in
`scheme_chars`, the scheme is `url[:i].lower()` and the rest is `url[i+1:]`;
otherwise the default scheme is kept.  (`url[:i]` for the first `':'` is
`url.takeWhile notColon`, and `':'` occurs in `url` exactly when that prefix
is shorter than `url`.) -/
def schemeSplit (defScheme url : List Char) : List Char × List Char :=
  let pre := url.takeWhile notColon
  if pre.length < url.length ∧ pre ≠ [] ∧ pyAsciiAlpha (url.headD ' ') ∧
      pre.all (fun c => schemeChars.contains c) then
    (pre.map Char.toLower, url.drop (pre.length + 1))
  else (defScheme, url)

/-- The netloc step of `urlsplit`: when `url[:2] == '//'`, `_splitnetloc`
takes everything after the `'//'` up to the first of `'/'`, `'?'`, `'#'`. -/
def netlocSplit (url : List Char) : List Char × List Char :=
  if url.take 2 = ['/', '/'] then
    ((url.drop 2).takeWhile (fun c => !netDelim c),
     (url.drop 2).dropWhile (fun c => !netDelim c))
  else ([], url)

/-- `url, fragment = url.split('#', 1)` when `'#' in url`. -/
def fragSplit (url : List Char) : List Char × List Char :=
  if url.contains '#' then (url.takeWhile notHash, (url.dropWhile notHash).drop 1)
  else (url, [])

/-- `url, query = url.split('?', 1)` when `'?' in url`. -/
def querySplit (url : List Char) : List Char × List Char :=
  if url.contains '?' then (url.takeWhile notQm, (url.dropWhile notQm).drop 1)
  else (url, [])

/-- `urlsplit(url, scheme, allow_fragments=True)` from CPython 3.11. -/
def urlsplitE (url0 scheme0 : List Char) : Except PyErr SplitResult :=
  let url1 := pyLstripC0 url0
  let scheme1 := stripBy isC0OrSpace scheme0
  let url := removeUnsafe url1
  let defScheme := removeUnsafe scheme1
  let p := schemeSplit defScheme url
  let scheme := p.1
  let q := netlocSplit p.2
  let netloc := q.1
  let url3 := q.2
  if (netloc.contains '[' ∧ ¬ netloc.contains ']') ∨
      (netloc.contains ']' ∧ ¬ netloc.contains '[') then
    .error .invalidIPv6
  else if netloc.contains '[' ∧ netloc.contains ']' then
    .error .unmodelledNetloc
  else if ¬ netloc.all (fun c => c.toNat < 128) then
    .error .unmodelledNetloc
  else
    let r := fragSplit url3
    let s := querySplit r.1
    .ok ⟨scheme, netloc, s.1, s.2, r.2⟩

/-- `_splitparams(url)` from CPython 3.11: split the parameters off the last
path segment. -/
def splitparams (url : List Char) : List Char × List Char :=
  if url.contains '/' then
    let lastSeg := (url.reverse.takeWhile notSlash).reverse
    let stem := url.take (url.length - lastSeg.length)
    if lastSeg.contains ';' then
      (stem ++ lastSeg.takeWhile notSemi, (lastSeg.dropWhile notSemi).drop 1)
    else (url, [])
  else
    (url.takeWhile notSemi, (url.dropWhile notSemi).drop 1)

/-- `urlparse(url, scheme, allow_fragments=True)` from CPython 3.11. -/
def urlparseE (url scheme : List Char) : Except PyErr ParseResult :=
  match urlsplitE url scheme with
  | .error e => .error e
  | .ok r =>
    if usesParams.contains r.scheme ∧ r.path.contains ';' then
      let p := splitparams r.path
      .ok ⟨r.scheme, r.netloc, p.1, p.2, r.query, r.fragment⟩
    else
      .ok ⟨r.scheme, r.netloc, r.path, [], r.query, r.fragment⟩

/-- `urlunsplit(components)` from CPython 3.11. -/
def urlunsplit (r : SplitResult) : List Char :=
  let url0 := r.path
  let url1 :=
    if r.netloc ≠ [] ∨
        (r.scheme ≠ [] ∧ usesNetloc.contains r.scheme ∧ url0.take 2 ≠ ['/', '/']) then
      let u := if url0 ≠ [] ∧ url0.take 1 ≠ ['/'] then '/' :: url0 else url0
      '/' :: '/' :: (r.netloc ++ u)
    else url0
  let url2 := if r.scheme ≠ [] then r.scheme ++ ':' :: url1 else url1
  let url3 := if r.query ≠ [] then url2 ++ '?' :: r.query else url2
  if r.fragment ≠ [] then url3 ++ '#' :: r.fragment else url3

/-- `urlunparse(components)` from CPython 3.11. -/
def urlunparse (p : ParseResult) : List Char :=
  let url := if p.params ≠ [] then p.path ++ ';' :: p.params else p.path
  urlunsplit ⟨p.scheme, p.netloc, url, p.query, p.fragment⟩

/-- `segments[1:-1] = filter(None, segments[1:-1])` of `urljoin`: drop the
empty strings strictly between the first and the last element. -/
def filterMiddle (segs : List (List Char)) : List (List Char) :=
  match segs with
  | [] => []
  | [a] => [a]
  | a :: b :: rest =>
    a :: ((b :: rest).dropLast.filter fun s => s ≠ []) ++
      [(b :: rest).getLast?.getD []]

/-- The `for seg in segments` resolution loop of `urljoin`. -/
def resolveSegs (segs : List (List Char)) : List (List Char) :=
  segs.foldl
    (fun acc seg =>
      if seg = strL ".." then acc.dropLast
      else if seg = strL "." then acc
      else acc ++ [seg])
    []

/-- The path-resolution section of `urljoin`: `base_parts` (drop the last
segment when it is not empty), `segments` (absolute reference replaces the
base path; otherwise concatenate and filter the interior empties), the
`resolved_path` loop, the trailing-`'/'` fixup for a final `'.'`/`'..'`, and
`'/'.join(resolved_path) or '/'`. -/
def joinResolve (bpath rpath : List Char) : List Char :=
  let base_parts0 := pySplit '/' bpath
  let base_parts :=
    if base_parts0.getLast? = some [] then base_parts0
    else base_parts0.dropLast
  let segments :=
    if rpath.take 1 = ['/'] then pySplit '/' rpath
    else filterMiddle (base_parts ++ pySplit '/' rpath)
  let resolved0 := resolveSegs segments
  let resolved :=
    if segments.getLast? = some (strL ".") ∨
        segments.getLast? = some (strL "..") then
      resolved0 ++ [[]]
    else resolved0
  let joined := pyJoin '/' resolved
  if joined = [] then ['/'] else joined

/-- `urljoin(base, url)` from CPython 3.11. -/
def urljoinE (base url : List Char) : Except PyErr (List Char) :=
  if base = [] then .ok url
  else if url = [] then .ok base
  else
    match urlparseE base [] with
    | .error e => .error e
    | .ok b =>
      match urlparseE url b.scheme with
      | .error e => .error e
      | .ok r =>
        if r.scheme ≠ b.scheme ∨ ¬ usesRelative.contains r.scheme then .ok url
        else if usesNetloc.contains r.scheme ∧ r.netloc ≠ [] then
          .ok (urlunparse ⟨r.scheme, r.netloc, r.path, r.params, r.query, r.fragment⟩)
        else
          let netloc := if usesNetloc.contains r.scheme then b.netloc else r.netloc
          if r.path = [] ∧ r.params = [] then
            let query := if r.query = [] then b.query else r.query
            .ok (urlunparse ⟨r.scheme, netloc, b.path, b.params, query, r.fragment⟩)
          else
            .ok (urlunparse ⟨r.scheme, netloc, joinResolve b.path r.path,
              r.params, r.query, r.fragment⟩)

/-! ## The fetcher (`download_genome`, lines 29-72) and batch driver (lines 74-88)

The effectful parts are embedded with explicit state passing:

* the filesystem is a map from path strings to optional file contents (bytes
  as `List Nat`);
* the network is a `World` giving, per URL, the HEAD status code, the outcome
  of the streaming GET, and the gzip decompression function applied by
  `gzip.open`/`shutil.copyfileobj`;
* observable actions (console messages, the HEAD and GET requests,
  `os.makedirs`) are recorded in an event trace in program order;
* an uncaught exception (`r.raise_for_status()`, a connection drop while
  iterating chunks, or the `ValueError` out of `urljoin`) terminates
  `download_genome` and, since `main`'s loop has no handler, the whole batch;
  it is the non-`ok` constructors of `DlResult`.

`Path(output_dir) / name` is modelled as `output_dir ++ '/' :: name`; pathlib
path normalization is elided, which is sound here because a run only ever
compares and stores the path strings it itself constructed.  The `print` of
`extract_triplets` appears at its single call site.  `os.makedirs` is recorded
as an event; no later operation of the program reads the directory set, so the
directories themselves need not be part of the state. -/

/-- Outcome of `requests.get(url, stream=True)` together with the chunk
iteration (lines 58-62). -/
inductive GetOutcome where
  /-- 2xx response; the streamed chunks of `iter_content`. -/
  | success (chunks : List (List Nat)) : GetOutcome
  /-- Non-success status: `r.raise_for_status()` raises before the output
  file is opened. -/
  | httpError (code : Nat) : GetOutcome
  /-- Transport failure while iterating chunks: the chunks already received
  were written to the open file before the exception propagates. -/
  | midStreamFailure (chunksWritten : List (List Nat)) : GetOutcome
deriving DecidableEq

/-- The remote side and the decompressor, fixed for a run. -/
structure World where
  headStatus : List Char → Nat
  getOutcome : List Char → GetOutcome
  gunzip : List Nat → List Nat

/-- The local filesystem: path string to optional content. -/
structure FS where
  files : List Char → Option (List Nat)

/-- Create or overwrite a file. -/
def FS.write (fs : FS) (p : List Char) (content : List Nat) : FS :=
  ⟨fun q => if q = p then some content else fs.files q⟩

/-- `os.remove`. -/
def FS.removeFile (fs : FS) (p : List Char) : FS :=
  ⟨fun q => if q = p then none else fs.files q⟩

/-- Observable actions, in program order. -/
inductive Event where
  | msg (s : List Char) : Event
  | headReq (url : List Char) : Event
  | mkdirs (dir : List Char) : Event
  | getReq (url : List Char) : Event
deriving DecidableEq

/-- How a call to `download_genome` (or a whole batch) ends. -/
inductive DlResult where
  /-- Returned normally. -/
  | ok : DlResult
  /-- An uncaught `requests` exception propagates. -/
  | transportError : DlResult
  /-- An uncaught `ValueError` out of `urljoin` propagates. -/
  | pythonError (e : PyErr) : DlResult
deriving DecidableEq

/-- Line 23. -/
def invalid_msg (g : List Char) : List Char :=
  strL "Invalid GCF number format: " ++ g

/-- Line 44. -/
def exists_msg (g : List Char) : List Char :=
  strL "gbff file already exists for " ++ g ++
    strL " in the output directory, skipping download"

/-- Line 52. -/
def notfound_msg (g : List Char) : List Char :=
  strL "Genome file not found for " ++ g

/-- Line 64. -/
def downloaded_msg (p : List Char) : List Char := strL "Downloaded: " ++ p

/-- Line 72. -/
def extracted_msg (p : List Char) : List Char := strL "Extracted: " ++ p

/-- Line 34: `base_url`. -/
def base_url_of (triplet_path gcf : List Char) : List Char :=
  strL "https://ftp.ncbi.nlm.nih.gov/genomes/all/GCF/" ++ triplet_path ++
    '/' :: gcf ++ ['/']

/-- Line 35: `genome_file`. -/
def genome_file_of (gcf : List Char) : List Char := gcf ++ strL "_genomic.gbff"

/-- Line 36: `genome_gz_file`. -/
def genome_gz_file_of (gcf : List Char) : List Char :=
  genome_file_of gcf ++ strL ".gz"

/-- Line 39: `output_gbff_path`. -/
def gbff_path (output_dir gcf : List Char) : List Char :=
  output_dir ++ '/' :: genome_file_of gcf

/-- Line 40: `output_gz_path`. -/
def gz_path (output_dir gcf : List Char) : List Char :=
  output_dir ++ '/' :: genome_gz_file_of gcf

/-- Line 48: `genome_url = urljoin(base_url, genome_gz_file)`. -/
def genome_url_of (gcf triplet_path : List Char) : Except PyErr (List Char) :=
  urljoinE (base_url_of triplet_path gcf) (genome_gz_file_of gcf)

/-- Spec-side definition for claim C2: the deterministic URL template
`https://<host>/genomes/all/GCF/<grouped-digits>/<identifier>/<identifier>_genomic.gbff.gz`. -/
def templateURL (gcf triplet_path : List Char) : List Char :=
  strL "https://ftp.ncbi.nlm.nih.gov/genomes/all/GCF/" ++ triplet_path ++
    '/' :: gcf ++ '/' :: gcf ++ strL "_genomic.gbff.gz"

/-- `download_genome` (lines 29-72).  Returns the updated filesystem, the
event trace, and how the call ended. -/
def download_genome (w : World) (gcf_number output_dir : List Char) (fs : FS) :
    FS × List Event × DlResult :=
  match extract_triplets gcf_number with
  | none => (fs, [Event.msg (invalid_msg gcf_number)], DlResult.ok)
  | some triplet_path =>
    -- `if not triplet_path: return` (lines 31-32); the parser's `print`
    -- already happened in the `none` branch above, and a `some []` result
    -- (falsy non-None) would return silently.
    if triplet_path = [] then (fs, [], DlResult.ok)
    else
      let output_gbff_path := gbff_path output_dir gcf_number
      let output_gz_path := gz_path output_dir gcf_number
      -- line 43: `if output_gz_path.exists() or output_gbff_path.exists()`
      if (fs.files output_gz_path).isSome ∨ (fs.files output_gbff_path).isSome then
        (fs, [Event.msg (exists_msg gcf_number)], DlResult.ok)
      else
        match genome_url_of gcf_number triplet_path with
        | .error e => (fs, [], DlResult.pythonError e)
        | .ok genome_url =>
          -- lines 50-53: HEAD request and status test
          if w.headStatus genome_url ≠ 200 then
            (fs, [Event.headReq genome_url, Event.msg (notfound_msg gcf_number)],
             DlResult.ok)
          else
            -- line 55: os.makedirs; lines 58-62: streaming GET
            match w.getOutcome genome_url with
            | .httpError _ =>
              (fs,
               [Event.headReq genome_url, Event.mkdirs output_dir,
                Event.getReq genome_url],
               DlResult.transportError)
            | .midStreamFailure chunksWritten =>
              (fs.write output_gz_path chunksWritten.flatten,
               [Event.headReq genome_url, Event.mkdirs output_dir,
                Event.getReq genome_url],
               DlResult.transportError)
            | .success chunks =>
              -- lines 60-72: write the gz file, decompress, remove the gz
              let content := chunks.flatten
              let fs1 := fs.write output_gz_path content
              let fs2 := fs1.write output_gbff_path (w.gunzip content)
              let fs3 := fs2.removeFile output_gz_path
              (fs3,
               [Event.headReq genome_url, Event.mkdirs output_dir,
                Event.getReq genome_url,
                Event.msg (downloaded_msg output_gz_path),
                Event.msg (extracted_msg output_gbff_path)],
               DlResult.ok)

/-- `file.readlines()`: split into lines, keeping the newline at the end of
each line.  The content is the text after Python's universal-newline
translation, so `'\n'` is the only line terminator. -/
def pyReadlines : List Char → List (List Char)
  | [] => []
  | c :: rest =>
    if c = '\n' then ['\n'] :: pyReadlines rest
    else
      match pyReadlines rest with
      | [] => [[c]]
      | l :: ls => (c :: l) :: ls

/-- Line 84: `[line.strip() for line in file.readlines() if line.strip()]`. -/
def gcf_list (content : List Char) : List (List Char) :=
  (pyReadlines content).foldr
    (fun line acc => if pyStrip line = [] then acc else pyStrip line :: acc) []

/-- Lines 87-88: the driver loop.  An exception out of `download_genome`
propagates and ends the loop; a normal return continues with the next
identifier. -/
def runBatch (w : World) (output_dir : List Char) (fs : FS) :
    List (List Char) → FS × List Event × DlResult
  | [] => (fs, [], DlResult.ok)
  | g :: rest =>
    let r1 := download_genome w g output_dir fs
    match r1.2.2 with
    | DlResult.ok =>
      let r2 := runBatch w output_dir r1.1 rest
      (r2.1, r1.2.1 ++ r2.2.1, r2.2.2)
    | e => (r1.1, r1.2.1, e)

/-- `main` (lines 74-88) after argument parsing: read the identifier list
from the input file's content and run the loop. -/
def main_model (w : World) (fs : FS) (input_content output_dir : List Char) :
    FS × List Event × DlResult :=
  runBatch w output_dir fs (gcf_list input_content)

/-! ## Structure of the parser's results -/

/-- A successful leftmost search decomposes the string around the captured
digit block itself. -/
theorem reSearchGCF_some_decomp {s ds : List Char} (h : reSearchGCF s = some ds) :
    ∃ pre post, s = pre ++ strGCF ++ ds ++ '.' :: post ∧ ds ≠ [] ∧
      ∀ c ∈ ds, pyDigit c := by
  induction s with
  | nil => exact absurd h (by simp [reSearchGCF])
  | cons c rest ih =>
    rw [reSearchGCF] at h
    cases hm : matchGCFAt (c :: rest) with
    | some ds' =>
      rw [hm] at h
      obtain ⟨post, hp, hne, hdig⟩ := matchGCFAt_shape hm
      have hds : ds' = ds := by simpa using h
      exact ⟨[], post, by rw [← hds]; simpa using hp, hds ▸ hne, hds ▸ hdig⟩
    | none =>
      rw [hm] at h
      obtain ⟨pre, post, hp, hne, hdig⟩ := ih h
      exact ⟨c :: pre, post, by rw [hp]; simp, hne, hdig⟩

theorem pyJoin_cons₂ (sep : Char) (x y : List Char) (ys : List (List Char)) :
    pyJoin sep (x :: y :: ys) = x ++ sep :: pyJoin sep (y :: ys) := rfl

/-- Joining a concatenation of two nonempty lists of pieces. -/
theorem pyJoin_append (sep : Char) (x : List Char) (xs : List (List Char))
    (y : List Char) (ys : List (List Char)) :
    pyJoin sep ((x :: xs) ++ (y :: ys)) =
      pyJoin sep (x :: xs) ++ sep :: pyJoin sep (y :: ys) := by
  induction xs generalizing x with
  | nil => rfl
  | cons x' xs ih =>
    have h1 : (x :: x' :: xs) ++ (y :: ys) = x :: (x' :: (xs ++ y :: ys)) := by simp
    rw [h1, pyJoin_cons₂]
    have h2 : x' :: (xs ++ y :: ys) = (x' :: xs) ++ (y :: ys) := by simp
    rw [h2, ih x', pyJoin_cons₂]
    simp

/-- Every chunk produced by the 3-chunking is nonempty and draws its
characters from the input. -/
theorem chunks3Spec_pieces (ds : List Char) :
    ∀ x ∈ chunks3Spec ds, x ≠ [] ∧ ∀ c ∈ x, c ∈ ds := by
  induction ds using chunks3Spec.induct with
  | case1 => rw [chunks3Spec]; simp
  | case2 c => rw [chunks3Spec]; simp
  | case3 c d => rw [chunks3Spec]; simp
  | case4 c d e rest ih =>
    rw [chunks3Spec]
    intro x hx
    rcases List.mem_cons.mp hx with h1 | h2
    · subst h1
      refine ⟨by simp, ?_⟩
      intro a ha
      simp only [List.mem_cons] at ha ⊢
      tauto
    · obtain ⟨hne, hsub⟩ := ih x h2
      exact ⟨hne, fun a ha =>
        List.mem_cons_of_mem c (List.mem_cons_of_mem d
          (List.mem_cons_of_mem e (hsub a ha)))⟩

theorem chunks3Spec_ne_nil {ds : List Char} (h : ds ≠ []) :
    chunks3Spec ds ≠ [] := by
  match ds with
  | [] => exact absurd rfl h
  | [c] => rw [chunks3Spec]; simp
  | [c, d] => rw [chunks3Spec]; simp
  | c :: d :: e :: rest => rw [chunks3Spec]; simp

/-- The head piece of a join of nonempty pieces makes the join nonempty. -/
theorem pyJoin_ne_nil {sep : Char} {x : List Char} {xs : List (List Char)}
    (h : x ≠ []) : pyJoin sep (x :: xs) ≠ [] := by
  cases xs with
  | nil => exact h
  | cons y ys =>
    rw [pyJoin_cons₂]
    cases x with
    | nil => exact absurd rfl h
    | cons a t => simp

/-- Everything `extract_triplets` returns is the '/'-join of a nonempty list
of nonempty all-digit chunks, and the input has at least 6 characters. -/
theorem extract_triplets_some {g t : List Char}
    (h : extract_triplets g = some t) :
    ∃ tris : List (List Char), t = pyJoin '/' tris ∧ tris ≠ [] ∧
      (∀ x ∈ tris, x ≠ [] ∧ ∀ c ∈ x, pyDigit c) ∧ 6 ≤ g.length := by
  unfold extract_triplets at h
  cases hs : reSearchGCF g with
  | none => rw [hs] at h; exact absurd h (by simp)
  | some ds =>
    rw [hs] at h
    have ht : t = pyJoin '/' (triplets_of ds) := by
      have := h
      simpa using this.symm
    obtain ⟨pre, post, hdecomp, hne, hdig⟩ := reSearchGCF_some_decomp hs
    refine ⟨chunks3Spec ds, by rw [ht, triplets_of_eq], chunks3Spec_ne_nil hne,
      ?_, ?_⟩
    · intro x hx
      obtain ⟨hxne, hsub⟩ := chunks3Spec_pieces ds x hx
      exact ⟨hxne, fun c hc => hdig c (hsub c hc)⟩
    · have : g.length = pre.length + 4 + ds.length + (1 + post.length) := by
        rw [hdecomp]; simp [strGCF]; omega
      have hds1 : 1 ≤ ds.length := by
        cases ds with
        | nil => exact absurd rfl hne
        | cons a t => simp
      omega

/-- The parser never returns the empty string. -/
theorem extract_triplets_some_ne_nil {g t : List Char}
    (h : extract_triplets g = some t) : t ≠ [] := by
  obtain ⟨tris, ht, htne, hpieces, -⟩ := extract_triplets_some h
  cases tris with
  | nil => exact absurd rfl htne
  | cons x xs =>
    rw [ht]
    exact pyJoin_ne_nil (hpieces x (List.mem_cons_self x xs)).1

/-! ## Branch equations for `download_genome` and `runBatch` -/

theorem download_genome_invalid {w : World} {g d : List Char} {fs : FS}
    (h : extract_triplets g = none) :
    download_genome w g d fs = (fs, [Event.msg (invalid_msg g)], DlResult.ok) := by
  unfold download_genome
  rw [h]

theorem download_genome_exists {w : World} {g d t : List Char} {fs : FS}
    (hpt : extract_triplets g = some t)
    (hex : (fs.files (gz_path d g)).isSome ∨ (fs.files (gbff_path d g)).isSome) :
    download_genome w g d fs = (fs, [Event.msg (exists_msg g)], DlResult.ok) := by
  have hne := extract_triplets_some_ne_nil hpt
  simp only [download_genome, hpt]
  rw [if_neg hne, if_pos hex]

theorem download_genome_urlerror {w : World} {g d t : List Char} {fs : FS} {e : PyErr}
    (hpt : extract_triplets g = some t)
    (hgz : fs.files (gz_path d g) = none) (hgb : fs.files (gbff_path d g) = none)
    (hurl : genome_url_of g t = Except.error e) :
    download_genome w g d fs = (fs, [], DlResult.pythonError e) := by
  have hne := extract_triplets_some_ne_nil hpt
  simp only [download_genome, hpt]
  rw [if_neg hne, if_neg (by simp [hgz, hgb]), hurl]

theorem download_genome_notfound {w : World} {g d t u : List Char} {fs : FS}
    (hpt : extract_triplets g = some t)
    (hgz : fs.files (gz_path d g) = none) (hgb : fs.files (gbff_path d g) = none)
    (hurl : genome_url_of g t = Except.ok u) (hst : w.headStatus u ≠ 200) :
    download_genome w g d fs =
      (fs, [Event.headReq u, Event.msg (notfound_msg g)], DlResult.ok) := by
  have hne := extract_triplets_some_ne_nil hpt
  simp only [download_genome, hpt]
  rw [if_neg hne, if_neg (by simp [hgz, hgb]), hurl]
  simp only []
  rw [if_pos hst]

theorem download_genome_success {w : World} {g d t u : List Char} {fs : FS}
    {chunks : List (List Nat)}
    (hpt : extract_triplets g = some t)
    (hgz : fs.files (gz_path d g) = none) (hgb : fs.files (gbff_path d g) = none)
    (hurl : genome_url_of g t = Except.ok u) (hst : w.headStatus u = 200)
    (hget : w.getOutcome u = GetOutcome.success chunks) :
    download_genome w g d fs =
      (((fs.write (gz_path d g) chunks.flatten).write (gbff_path d g)
          (w.gunzip chunks.flatten)).removeFile (gz_path d g),
       [Event.headReq u, Event.mkdirs d, Event.getReq u,
        Event.msg (downloaded_msg (gz_path d g)),
        Event.msg (extracted_msg (gbff_path d g))],
       DlResult.ok) := by
  have hne := extract_triplets_some_ne_nil hpt
  simp only [download_genome, hpt]
  rw [if_neg hne, if_neg (by simp [hgz, hgb]), hurl]
  simp only []
  rw [if_neg (by simp [hst]), hget]

theorem download_genome_getfail {w : World} {g d t u : List Char} {fs : FS}
    (hpt : extract_triplets g = some t)
    (hgz : fs.files (gz_path d g) = none) (hgb : fs.files (gbff_path d g) = none)
    (hurl : genome_url_of g t = Except.ok u) (hst : w.headStatus u = 200)
    (hfail : (∃ code, w.getOutcome u = GetOutcome.httpError code) ∨
      ∃ parts, w.getOutcome u = GetOutcome.midStreamFailure parts) :
    (download_genome w g d fs).2 =
      ([Event.headReq u, Event.mkdirs d, Event.getReq u], DlResult.transportError) := by
  have hne := extract_triplets_some_ne_nil hpt
  simp only [download_genome, hpt]
  rw [if_neg hne, if_neg (by simp [hgz, hgb]), hurl]
  simp only []
  rw [if_neg (by simp [hst])]
  rcases hfail with ⟨code, hcode⟩ | ⟨parts, hparts⟩
  · rw [hcode]
  · rw [hparts]

theorem runBatch_cons_ok {w : World} {d : List Char} {fs : FS} {g : List Char}
    {rest : List (List Char)} (h : (download_genome w g d fs).2.2 = DlResult.ok) :
    runBatch w d fs (g :: rest) =
      ((runBatch w d (download_genome w g d fs).1 rest).1,
       (download_genome w g d fs).2.1 ++
         (runBatch w d (download_genome w g d fs).1 rest).2.1,
       (runBatch w d (download_genome w g d fs).1 rest).2.2) := by
  simp only [runBatch, h]

theorem runBatch_cons_fail {w : World} {d : List Char} {fs : FS} {g : List Char}
    {rest : List (List Char)} {r : DlResult}
    (h : (download_genome w g d fs).2.2 = r) (hr : r ≠ DlResult.ok) :
    runBatch w d fs (g :: rest) =
      ((download_genome w g d fs).1, (download_genome w g d fs).2.1, r) := by
  cases r with
  | ok => exact absurd rfl hr
  | transportError => simp only [runBatch, h]
  | pythonError e => simp only [runBatch, h]

/-! ## Concrete fixtures used by witnesses and counterexamples -/

deriving instance DecidableEq for Except

/-- A remote world: every URL responds 200 and serves two chunks; the
decompressor is an arbitrary concrete function. -/
def w0 : World := ⟨fun _ => 200, fun _ => GetOutcome.success [[104], [105]], fun b => b ++ b⟩

/-- A remote world answering 404 to every HEAD. -/
def w404 : World := ⟨fun _ => 404, fun _ => GetOutcome.success [], fun b => b⟩

/-- A remote world answering 301 to every HEAD. -/
def w301 : World := ⟨fun _ => 301, fun _ => GetOutcome.success [], fun b => b⟩

/-- A remote world answering 500 to every HEAD. -/
def w500 : World := ⟨fun _ => 500, fun _ => GetOutcome.success [], fun b => b⟩

/-- A remote world whose GET fails with a non-success status. -/
def wErr : World := ⟨fun _ => 200, fun _ => GetOutcome.httpError 503, fun b => b⟩

/-- A remote world whose GET drops mid-stream after one chunk. -/
def wDrop : World := ⟨fun _ => 200, fun _ => GetOutcome.midStreamFailure [[1]], fun b => b⟩

/-- The empty filesystem. -/
def fs0 : FS := ⟨fun _ => none⟩

/-- A filesystem holding a decompressed artifact for the malformed
identifier `bad`. -/
def fsBad : FS :=
  ⟨fun q => if q = strL "downloads/bad_genomic.gbff" then some [7] else none⟩

/-- A filesystem holding the decompressed artifact for `GCF_000005845.2`. -/
def fsHave : FS :=
  ⟨fun q => if q = strL "downloads/GCF_000005845.2_genomic.gbff" then some [7] else none⟩

def dirDL : List Char := strL "downloads"
def gMain : List Char := strL "GCF_000005845.2"
def tMain : List Char := strL "000/005/845"
def uMain : List Char :=
  strL "https://ftp.ncbi.nlm.nih.gov/genomes/all/GCF/000/005/845/GCF_000005845.2/GCF_000005845.2_genomic.gbff.gz"
def gBad : List Char := strL "bad"
def gNot : List Char := strL "NOT_A_GCF_NUMBER"
def gBracket : List Char := strL "//[GCF_1."
def gHijack : List Char := strL "http://e/GCF_123.4"
def uHijack : List Char := strL "http://e/GCF_123.4_genomic.gbff.gz"

/-! ## Claim C9 -/

/-- Claim C9: the parser's acceptance condition is an unanchored substring
match: `extract_triplets` returns a grouped path (rather than `none`) exactly
when the input contains, anywhere within it, the literal `GCF_` followed by
one or more digits (any Unicode decimal digit, as `\d` matches in a `str`
pattern) followed by a dot; in particular `xGCF_000005845.2` and
`GCF_123.anything` are accepted — and so is `GCF_５.x` with the fullwidth
digit U+FF15 — and the digit length is not checked. -/
theorem c9_unanchored_acceptance :
    (∀ s : List Char, (extract_triplets s).isSome ↔ gcfShape s) ∧
    (extract_triplets (strL "xGCF_000005845.2")).isSome ∧
    (extract_triplets (strL "GCF_123.anything")).isSome ∧
    (extract_triplets (strL "GCF_５.x")).isSome :=
  ⟨extract_triplets_isSome_iff, by decide, by decide, by decide⟩

/-! ## Claim C3 -/

/-- Claim C3, corrected: the claim ranges over every identifier, but for an
identifier the parser rejects, `download_genome` returns before the
local-existence test, so an existing artifact is reported with the invalid
format message, not the already-exists message. -/
theorem c3_counterexample :
    (fsBad.files (gbff_path dirDL gBad)).isSome ∧
    (download_genome w0 gBad dirDL fsBad).2 =
      ([Event.msg (invalid_msg gBad)], DlResult.ok) ∧
    Event.msg (exists_msg gBad) ∉ (download_genome w0 gBad dirDL fsBad).2.1 := by
  decide

/-- Claim C3 (amended to identifiers the parser accepts): if either artifact
already exists at its local path, `download_genome` performs no network call,
modifies no file, logs the already-exists message, and returns without
error.  The returned state is exactly `fs` and the trace is exactly the one
message, so in particular no HEAD or GET is issued. -/
theorem c3_skip_existing (w : World) (g d t : List Char) (fs : FS)
    (hpt : extract_triplets g = some t)
    (hex : (fs.files (gz_path d g)).isSome ∨ (fs.files (gbff_path d g)).isSome) :
    download_genome w g d fs = (fs, [Event.msg (exists_msg g)], DlResult.ok) :=
  download_genome_exists hpt hex

/-- Witness for C3 with the decompressed artifact present. -/
theorem c3_skip_existing_witness :
    download_genome w0 gMain dirDL fsHave =
      (fsHave, [Event.msg (exists_msg gMain)], DlResult.ok) :=
  c3_skip_existing w0 gMain dirDL tMain fsHave (by decide) (by decide)

/-! ## Claim C6 -/

/-- Claim C6: for every string without the prefix-digits-dot shape anywhere in
it, the parser returns `none`, `download_genome` only logs the invalid-format
message (no network call, no state change), and the batch continues with the
remaining identifiers. -/
theorem c6_malformed_skipped (w : World) (g d : List Char) (fs : FS)
    (rest : List (List Char)) (hshape : ¬ gcfShape g) :
    extract_triplets g = none ∧
    download_genome w g d fs = (fs, [Event.msg (invalid_msg g)], DlResult.ok) ∧
    runBatch w d fs (g :: rest) =
      ((runBatch w d fs rest).1,
       Event.msg (invalid_msg g) :: (runBatch w d fs rest).2.1,
       (runBatch w d fs rest).2.2) := by
  have hnone : extract_triplets g = none := by
    cases hcase : extract_triplets g with
    | none => rfl
    | some t =>
      exact absurd ((extract_triplets_isSome_iff g).mp (by rw [hcase]; simp)) hshape
  have hdl := @download_genome_invalid w g d fs hnone
  refine ⟨hnone, hdl, ?_⟩
  rw [runBatch_cons_ok (by rw [hdl]), hdl]
  simp

/-- Witness for C6 at the malformed identifier `NOT_A_GCF_NUMBER`. -/
theorem c6_malformed_skipped_witness :
    extract_triplets gNot = none ∧
    download_genome w0 gNot dirDL fs0 =
      (fs0, [Event.msg (invalid_msg gNot)], DlResult.ok) ∧
    runBatch w0 dirDL fs0 [gNot] =
      ((runBatch w0 dirDL fs0 []).1,
       Event.msg (invalid_msg gNot) :: (runBatch w0 dirDL fs0 []).2.1,
       (runBatch w0 dirDL fs0 []).2.2) :=
  c6_malformed_skipped w0 gNot dirDL fs0 []
    (fun h => by
      have h2 := (extract_triplets_isSome_iff gNot).mpr h
      rw [show extract_triplets gNot = none from by decide] at h2
      simp at h2)

/-! ## Claim C7 -/

/-- Claim C7, corrected: the claim ranges over every identifier with absent
local artifacts, but no HEAD is issued for an identifier the parser rejects
(`bad`: only the invalid-format message), nor for the parser-accepted
identifier `//[GCF_1.`, where `urljoin` raises `ValueError` before any
request, which terminates the run instead of skipping the identifier. -/
theorem c7_counterexample :
    fs0.files (gz_path dirDL gBad) = none ∧
    fs0.files (gbff_path dirDL gBad) = none ∧
    (download_genome w0 gBad dirDL fs0).2 =
      ([Event.msg (invalid_msg gBad)], DlResult.ok) ∧
    (extract_triplets gBracket).isSome ∧
    fs0.files (gz_path dirDL gBracket) = none ∧
    fs0.files (gbff_path dirDL gBracket) = none ∧
    (download_genome w0 gBracket dirDL fs0).2 =
      ([], DlResult.pythonError PyErr.invalidIPv6) := by
  decide

/-- Claim C7 (amended to identifiers the parser accepts whose URL
construction does not raise): with local artifacts absent, a HEAD existence
check is issued against the remote URL before any download; if the status is
not 200, the not-found message is logged, processing stops without error, no
file or directory is created (the state is unchanged and the trace holds only
the HEAD and the message), and the batch continues with the next
identifier. -/
theorem c7_head_then_skip (w : World) (g d t u : List Char) (fs : FS)
    (rest : List (List Char))
    (hpt : extract_triplets g = some t)
    (hurl : genome_url_of g t = Except.ok u)
    (hgz : fs.files (gz_path d g) = none) (hgb : fs.files (gbff_path d g) = none)
    (hst : w.headStatus u ≠ 200) :
    download_genome w g d fs =
      (fs, [Event.headReq u, Event.msg (notfound_msg g)], DlResult.ok) ∧
    runBatch w d fs (g :: rest) =
      ((runBatch w d fs rest).1,
       Event.headReq u :: Event.msg (notfound_msg g) :: (runBatch w d fs rest).2.1,
       (runBatch w d fs rest).2.2) := by
  have hdl := download_genome_notfound hpt hgz hgb hurl hst
  refine ⟨hdl, ?_⟩
  rw [runBatch_cons_ok (by rw [hdl]), hdl]
  simp

/-- Witness for C7 with a 404 remote. -/
theorem c7_head_then_skip_witness :
    download_genome w404 gMain dirDL fs0 =
      (fs0, [Event.headReq uMain, Event.msg (notfound_msg gMain)], DlResult.ok) ∧
    runBatch w404 dirDL fs0 [gMain] =
      ((runBatch w404 dirDL fs0 []).1,
       Event.headReq uMain :: Event.msg (notfound_msg gMain) ::
         (runBatch w404 dirDL fs0 []).2.1,
       (runBatch w404 dirDL fs0 []).2.2) :=
  c7_head_then_skip w404 gMain dirDL tMain uMain fs0 []
    (by decide) (by decide) (by decide) (by decide) (by decide)

/-! ## Claim C10 -/

/-- Claim C10: with the identifier accepted, the URL constructed, and the
local artifacts absent, the remote existence check treats every non-200 HEAD
status (redirects and server errors included) as "not found": the identifier
is skipped with a console message and no exception, and a GET is issued
exactly when the status is 200. -/
theorem c10_any_non200_skipped (w : World) (g d t u : List Char) (fs : FS)
    (hpt : extract_triplets g = some t)
    (hurl : genome_url_of g t = Except.ok u)
    (hgz : fs.files (gz_path d g) = none) (hgb : fs.files (gbff_path d g) = none) :
    (w.headStatus u ≠ 200 →
      download_genome w g d fs =
        (fs, [Event.headReq u, Event.msg (notfound_msg g)], DlResult.ok)) ∧
    ((∃ url, Event.getReq url ∈ (download_genome w g d fs).2.1) ↔
      w.headStatus u = 200) := by
  constructor
  · intro hst
    exact download_genome_notfound hpt hgz hgb hurl hst
  · by_cases hst : w.headStatus u = 200
    · simp only [hst, iff_true]
      cases hget : w.getOutcome u with
      | success chunks =>
        rw [download_genome_success hpt hgz hgb hurl hst hget]
        exact ⟨u, by simp⟩
      | httpError code =>
        have h2 := download_genome_getfail hpt hgz hgb hurl hst (Or.inl ⟨code, hget⟩)
        have h21 := congrArg Prod.fst h2
        refine ⟨u, ?_⟩
        rw [h21]
        simp
      | midStreamFailure parts =>
        have h2 := download_genome_getfail hpt hgz hgb hurl hst (Or.inr ⟨parts, hget⟩)
        have h21 := congrArg Prod.fst h2
        refine ⟨u, ?_⟩
        rw [h21]
        simp
    · rw [download_genome_notfound hpt hgz hgb hurl hst]
      simp [hst]

/-- Witness for C10 at a redirect status and a server-error status. -/
theorem c10_any_non200_skipped_witness :
    download_genome w301 gMain dirDL fs0 =
      (fs0, [Event.headReq uMain, Event.msg (notfound_msg gMain)], DlResult.ok) ∧
    download_genome w500 gMain dirDL fs0 =
      (fs0, [Event.headReq uMain, Event.msg (notfound_msg gMain)], DlResult.ok) :=
  ⟨(c10_any_non200_skipped w301 gMain dirDL tMain uMain fs0
      (by decide) (by decide) (by decide) (by decide)).1 (by decide),
   (c10_any_non200_skipped w500 gMain dirDL tMain uMain fs0
      (by decide) (by decide) (by decide) (by decide)).1 (by decide)⟩

/-! ## Claim C4 -/

/-- Claim C4: for a valid, remotely-present identifier (parser accepts, URL
constructed, nothing local, HEAD 200, GET succeeds, and the stream
decompresses to a nonempty byte string, as a genuine genome file does), a
successful `download_genome` leaves no compressed artifact, and the
decompressed artifact exists with content the full decompression of the
downloaded stream, which is nonempty. -/
theorem c4_success_artifacts (w : World) (g d t u : List Char) (fs : FS)
    (chunks : List (List Nat))
    (hpt : extract_triplets g = some t)
    (hurl : genome_url_of g t = Except.ok u)
    (hgz : fs.files (gz_path d g) = none) (hgb : fs.files (gbff_path d g) = none)
    (hst : w.headStatus u = 200)
    (hget : w.getOutcome u = GetOutcome.success chunks)
    (hnz : w.gunzip chunks.flatten ≠ []) :
    (download_genome w g d fs).2.2 = DlResult.ok ∧
    (download_genome w g d fs).1.files (gz_path d g) = none ∧
    (download_genome w g d fs).1.files (gbff_path d g) =
      some (w.gunzip chunks.flatten) ∧
    w.gunzip chunks.flatten ≠ [] := by
  have hdl := download_genome_success hpt hgz hgb hurl hst hget
  have hkey : gz_path d g = gbff_path d g ++ strL ".gz" := by
    simp [gz_path, gbff_path, genome_gz_file_of]
  have hne : gbff_path d g ≠ gz_path d g := by
    rw [hkey]
    intro h
    have hl := congrArg List.length h
    have h3 : (strL ".gz").length = 3 := rfl
    rw [List.length_append, h3] at hl
    omega
  rw [hdl]
  refine ⟨rfl, ?_, ?_, hnz⟩
  · simp [FS.removeFile]
  · simp [FS.removeFile, FS.write, hne]

/-- Witness for C4 with a two-chunk stream. -/
theorem c4_success_artifacts_witness :
    (download_genome w0 gMain dirDL fs0).2.2 = DlResult.ok ∧
    (download_genome w0 gMain dirDL fs0).1.files (gz_path dirDL gMain) = none ∧
    (download_genome w0 gMain dirDL fs0).1.files (gbff_path dirDL gMain) =
      some (w0.gunzip ([[104], [105]] : List (List Nat)).flatten) ∧
    w0.gunzip ([[104], [105]] : List (List Nat)).flatten ≠ [] :=
  c4_success_artifacts w0 gMain dirDL tMain uMain fs0 [[104], [105]]
    (by decide) (by decide) (by decide) (by decide) (by decide) (by decide)
    (by decide)

/-! ## Claim C5 -/

/-- Claim C5: a transport-level failure during the full download (non-success
status raised by `raise_for_status`, or a connection drop mid-stream) is
caught neither in `download_genome` nor in the driver loop: the exception
propagates, and the whole batch ends at the failing identifier — the result
of the batch run on `g :: rest` does not depend on `rest`, whose identifiers
are never processed. -/
theorem c5_transport_failure_aborts (w : World) (g d t u : List Char) (fs : FS)
    (hpt : extract_triplets g = some t)
    (hurl : genome_url_of g t = Except.ok u)
    (hgz : fs.files (gz_path d g) = none) (hgb : fs.files (gbff_path d g) = none)
    (hst : w.headStatus u = 200)
    (hfail : (∃ code, w.getOutcome u = GetOutcome.httpError code) ∨
      ∃ parts, w.getOutcome u = GetOutcome.midStreamFailure parts) :
    (download_genome w g d fs).2.2 = DlResult.transportError ∧
    ∀ rest, runBatch w d fs (g :: rest) =
      ((download_genome w g d fs).1, (download_genome w g d fs).2.1,
       DlResult.transportError) := by
  have h2 := download_genome_getfail hpt hgz hgb hurl hst hfail
  have h22 : (download_genome w g d fs).2.2 = DlResult.transportError := by
    rw [h2]
  exact ⟨h22, fun rest => runBatch_cons_fail h22 (by decide)⟩

/-- Witness for C5: a 503 on the full fetch ends the batch; the following
identifier is not processed. -/
theorem c5_transport_failure_aborts_witness :
    (download_genome wErr gMain dirDL fs0).2.2 = DlResult.transportError ∧
    runBatch wErr dirDL fs0 [gMain, gBad] =
      ((download_genome wErr gMain dirDL fs0).1,
       (download_genome wErr gMain dirDL fs0).2.1, DlResult.transportError) :=
  ⟨(c5_transport_failure_aborts wErr gMain dirDL tMain uMain fs0
      (by decide) (by decide) (by decide) (by decide) (by decide)
      (Or.inl ⟨503, by decide⟩)).1,
   (c5_transport_failure_aborts wErr gMain dirDL tMain uMain fs0
      (by decide) (by decide) (by decide) (by decide) (by decide)
      (Or.inl ⟨503, by decide⟩)).2 [gBad]⟩

/-! ## Claim C8 -/

theorem gcf_list_foldr_eq (lines : List (List Char)) :
    lines.foldr
      (fun line acc => if pyStrip line = [] then acc else pyStrip line :: acc)
      [] =
      (lines.map pyStrip).filter (fun l => l ≠ []) := by
  induction lines with
  | nil => rfl
  | cons l ls ih =>
    by_cases h : pyStrip l = []
    · simp [h, ih]
    · simp [h, ih]

/-- Claim C8: the driver processes exactly the whitespace-trimmed non-blank
lines in their original order, invoking the fetch once per identifier
strictly sequentially (the run on `g :: rest` is the run of `g` followed, on
the updated state, by the run of `rest`, unless an exception ends it); and a
`makedirs` call happens only for the caller's output directory, only after
the parser accepted the identifier, both local artifacts were found absent,
and the HEAD check returned 200. -/
theorem c8_batch_driver :
    (∀ content : List Char,
      gcf_list content =
        ((pyReadlines content).map pyStrip).filter (fun l => l ≠ [])) ∧
    (∀ (w : World) (d : List Char) (fs : FS) (g : List Char)
        (rest : List (List Char)),
      runBatch w d fs (g :: rest) =
        if (download_genome w g d fs).2.2 = DlResult.ok then
          ((runBatch w d (download_genome w g d fs).1 rest).1,
           (download_genome w g d fs).2.1 ++
             (runBatch w d (download_genome w g d fs).1 rest).2.1,
           (runBatch w d (download_genome w g d fs).1 rest).2.2)
        else
          ((download_genome w g d fs).1, (download_genome w g d fs).2.1,
           (download_genome w g d fs).2.2)) ∧
    (∀ (w : World) (d : List Char) (fs : FS) (g d' : List Char),
      Event.mkdirs d' ∈ (download_genome w g d fs).2.1 →
      d' = d ∧ ∃ t u, extract_triplets g = some t ∧
        genome_url_of g t = Except.ok u ∧
        fs.files (gz_path d g) = none ∧ fs.files (gbff_path d g) = none ∧
        w.headStatus u = 200) := by
  refine ⟨fun content => gcf_list_foldr_eq (pyReadlines content), ?_, ?_⟩
  · intro w d fs g rest
    by_cases h : (download_genome w g d fs).2.2 = DlResult.ok
    · rw [if_pos h, runBatch_cons_ok h]
    · rw [if_neg h, runBatch_cons_fail rfl h]
  · intro w d fs g d' hmem
    cases hpt : extract_triplets g with
    | none =>
      rw [download_genome_invalid hpt] at hmem
      simp at hmem
    | some t =>
      by_cases hex : (fs.files (gz_path d g)).isSome ∨
          (fs.files (gbff_path d g)).isSome
      · rw [download_genome_exists hpt hex] at hmem
        simp at hmem
      · push_neg at hex
        have hgz : fs.files (gz_path d g) = none :=
          Option.not_isSome_iff_eq_none.mp hex.1
        have hgb : fs.files (gbff_path d g) = none :=
          Option.not_isSome_iff_eq_none.mp hex.2
        cases hurl : genome_url_of g t with
        | error e =>
          rw [download_genome_urlerror hpt hgz hgb hurl] at hmem
          simp at hmem
        | ok u =>
          by_cases hst : w.headStatus u = 200
          · refine ⟨?_, t, u, rfl, hurl, hgz, hgb, hst⟩
            cases hget : w.getOutcome u with
            | success chunks =>
              rw [download_genome_success hpt hgz hgb hurl hst hget] at hmem
              simpa using hmem
            | httpError code =>
              have h2 := download_genome_getfail hpt hgz hgb hurl hst
                (Or.inl ⟨code, hget⟩)
              rw [congrArg Prod.fst h2] at hmem
              simpa using hmem
            | midStreamFailure parts =>
              have h2 := download_genome_getfail hpt hgz hgb hurl hst
                (Or.inr ⟨parts, hget⟩)
              rw [congrArg Prod.fst h2] at hmem
              simpa using hmem
          · rw [download_genome_notfound hpt hgz hgb hurl hst] at hmem
            simp at hmem

/-- Witness for C8: a concrete input file content, and a concrete run in
which the `makedirs` happened. -/
theorem c8_batch_driver_witness :
    gcf_list (strL "GCF_000005845.2\n\n  bad  \n") =
      ((pyReadlines (strL "GCF_000005845.2\n\n  bad  \n")).map pyStrip).filter
        (fun l => l ≠ []) ∧
    (dirDL = dirDL ∧ ∃ t u, extract_triplets gMain = some t ∧
      genome_url_of gMain t = Except.ok u ∧
      fs0.files (gz_path dirDL gMain) = none ∧
      fs0.files (gbff_path dirDL gMain) = none ∧
      w0.headStatus u = 200) :=
  ⟨c8_batch_driver.1 (strL "GCF_000005845.2\n\n  bad  \n"),
   c8_batch_driver.2.2 w0 dirDL fs0 gMain dirDL (by decide)⟩

/-! ## Claim C2: groundwork

Boundary lemmas for string operations on `literal ++ symbolic` shapes, and
the character class under which the URL construction is plain
concatenation. -/

/-- Characters that `urlsplit`/`urljoin` pass through verbatim: above the
C0-control/space range and none of the URL delimiters. -/
def urlSafeChar (c : Char) : Prop :=
  32 < c.toNat ∧ c ≠ ':' ∧ c ≠ '/' ∧ c ≠ '?' ∧ c ≠ '#' ∧ c ≠ ';'

instance (c : Char) : Decidable (urlSafeChar c) := by
  unfold urlSafeChar
  infer_instance

theorem takeWhile_append_stop {p : Char → Bool} {l₁ : List Char} (l₂ : List Char)
    (h : l₁.takeWhile p ≠ l₁) : (l₁ ++ l₂).takeWhile p = l₁.takeWhile p := by
  induction l₁ with
  | nil => exact absurd rfl h
  | cons a l ih =>
    by_cases ha : p a
    · have h' : l.takeWhile p ≠ l := by
        intro hh
        exact h (by rw [List.takeWhile_cons, if_pos ha, hh])
      rw [List.cons_append, List.takeWhile_cons, if_pos ha,
        List.takeWhile_cons, if_pos ha, ih h']
    · rw [List.cons_append, takeWhile_cons_neg ha, takeWhile_cons_neg ha]

theorem dropWhile_append_stop {p : Char → Bool} {l₁ : List Char} (l₂ : List Char)
    (h : l₁.dropWhile p ≠ []) : (l₁ ++ l₂).dropWhile p = l₁.dropWhile p ++ l₂ := by
  induction l₁ with
  | nil => exact absurd rfl h
  | cons a l ih =>
    by_cases ha : p a
    · have h' : l.dropWhile p ≠ [] := by
        intro hh
        exact h (by rw [List.dropWhile_cons, if_pos ha, hh])
      rw [List.cons_append, List.dropWhile_cons, if_pos ha,
        List.dropWhile_cons, if_pos ha, ih h']
    · rw [List.cons_append, dropWhile_cons_neg ha, dropWhile_cons_neg ha,
        List.cons_append]

theorem headD_append {l₁ l₂ : List Char} {d : Char} (h : l₁ ≠ []) :
    (l₁ ++ l₂).headD d = l₁.headD d := by
  cases l₁ with
  | nil => exact absurd rfl h
  | cons a t => rfl

theorem dropWhile_of_head_neg {p : Char → Bool} {l : List Char}
    (h : ¬ p (l.headD ' ')) : l.dropWhile p = l := by
  cases l with
  | nil => rfl
  | cons a t => exact dropWhile_cons_neg (by simpa using h)

theorem take_append_le {l₁ l₂ : List Char} {n : Nat} (h : n ≤ l₁.length) :
    (l₁ ++ l₂).take n = l₁.take n := by
  rw [List.take_append_eq_append_take, show n - l₁.length = 0 by omega]
  simp

theorem drop_append_le {l₁ l₂ : List Char} {n : Nat} (h : n ≤ l₁.length) :
    (l₁ ++ l₂).drop n = l₁.drop n ++ l₂ := by
  rw [List.drop_append_eq_append_drop, show n - l₁.length = 0 by omega]
  simp

theorem take_two_ne_slashes {c : Char} (l : List Char) (hc : c ≠ '/') :
    (c :: l).take 2 ≠ ['/', '/'] := by
  intro h
  have h2 : (c :: l).take 2 = c :: l.take 1 := rfl
  rw [h2] at h
  injection h with h1 _
  exact hc h1

theorem contains_eq_false {l : List Char} {c : Char} (h : ∀ a ∈ l, a ≠ c) :
    l.contains c = false := by
  induction l with
  | nil => rfl
  | cons a t ih =>
    rw [List.contains_cons]
    have hac : (c == a) = false :=
      beq_eq_false_iff_ne.mpr fun hh => (h a (List.mem_cons_self a t)) hh.symm
    rw [hac, ih fun b hb => h b (List.mem_cons_of_mem a hb)]
    rfl

theorem digit_ne_slash {c : Char} (h : pyDigit c) : c ≠ '/' :=
  fun hh => absurd (hh ▸ h) (by decide)

theorem digit_not_removed {c : Char} (h : pyDigit c) : ¬ isUnsafeURLByte c := by
  intro hu
  simp only [isUnsafeURLByte, Bool.or_eq_true, beq_iff_eq] at hu
  rcases hu with (h1 | h1) | h1 <;> subst h1 <;> exact absurd h (by decide)

theorem safe_not_removed {c : Char} (h : urlSafeChar c) : ¬ isUnsafeURLByte c := by
  intro hu
  have h1 := h.1
  simp only [isUnsafeURLByte, Bool.or_eq_true, beq_iff_eq] at hu
  rcases hu with (h2 | h2) | h2 <;> subst h2 <;> revert h1 <;> decide

theorem safe_not_c0 {c : Char} (h : urlSafeChar c) : ¬ isC0OrSpace c := by
  have h1 := h.1
  simp only [isC0OrSpace, decide_eq_true_eq]
  omega

theorem digits_ne_dots {x : List Char} (hd : ∀ c ∈ x, pyDigit c) :
    x ≠ strL "." ∧ x ≠ strL ".." := by
  constructor
  · intro h
    have h1 : '.' ∈ x := by rw [h]; decide
    exact absurd (hd '.' h1) (by decide)
  · intro h
    have h1 : '.' ∈ x := by rw [h]; decide
    exact absurd (hd '.' h1) (by decide)

theorem long_ne_dots {x : List Char} (h : 3 ≤ x.length) :
    x ≠ strL "." ∧ x ≠ strL ".." := by
  constructor
  · intro hh
    rw [hh] at h
    exact absurd h (by decide)
  · intro hh
    rw [hh] at h
    exact absurd h (by decide)

theorem pySplit_cons_sep (sep : Char) (l : List Char) :
    pySplit sep (sep :: l) = [] :: pySplit sep l := by
  rw [pySplit, if_pos rfl]

theorem pySplit_piece {sep : Char} {x : List Char} (l : List Char)
    (hx : ∀ c ∈ x, c ≠ sep) :
    pySplit sep (x ++ sep :: l) = x :: pySplit sep l := by
  induction x with
  | nil => simpa using pySplit_cons_sep sep l
  | cons a t ih =>
    have ha : a ≠ sep := hx a (List.mem_cons_self a t)
    rw [List.cons_append, pySplit, if_neg ha,
      ih fun b hb => hx b (List.mem_cons_of_mem a hb)]

theorem pySplit_sepfree {sep : Char} {x : List Char} (hx : ∀ c ∈ x, c ≠ sep) :
    pySplit sep x = [x] := by
  induction x with
  | nil => rfl
  | cons a t ih =>
    have ha : a ≠ sep := hx a (List.mem_cons_self a t)
    rw [pySplit, if_neg ha, ih fun b hb => hx b (List.mem_cons_of_mem a hb)]

theorem pySplit_join {sep : Char} {tris : List (List Char)} {x : List Char}
    (l : List Char) (htris : ∀ y ∈ (x :: tris), ∀ c ∈ y, c ≠ sep) :
    pySplit sep (pyJoin sep (x :: tris) ++ sep :: l) =
      (x :: tris) ++ pySplit sep l := by
  induction tris generalizing x with
  | nil =>
    rw [show pyJoin sep [x] = x from rfl,
      pySplit_piece l (htris x (List.mem_cons_self _ _))]
    rfl
  | cons y ys ih =>
    have hx := htris x (List.mem_cons_self _ _)
    have hrest : ∀ z ∈ (y :: ys), ∀ c ∈ z, c ≠ sep :=
      fun z hz => htris z (List.mem_cons_of_mem x hz)
    rw [pyJoin_cons₂, List.append_assoc, List.cons_append, pySplit_piece _ hx,
      ih hrest]
    rfl

theorem resolveSegs_aux (segs : List (List Char)) (acc : List (List Char))
    (h : ∀ s ∈ segs, s ≠ strL ".." ∧ s ≠ strL ".") :
    segs.foldl
      (fun acc seg =>
        if seg = strL ".." then acc.dropLast
        else if seg = strL "." then acc else acc ++ [seg]) acc = acc ++ segs := by
  induction segs generalizing acc with
  | nil => simp
  | cons s ss ih =>
    obtain ⟨h1, h2⟩ := h s (List.mem_cons_self s ss)
    rw [List.foldl_cons, if_neg h1, if_neg h2,
      ih (acc ++ [s]) fun z hz => h z (List.mem_cons_of_mem s hz)]
    simp

theorem resolveSegs_no_dots {segs : List (List Char)}
    (h : ∀ s ∈ segs, s ≠ strL ".." ∧ s ≠ strL ".") :
    resolveSegs segs = segs := by
  unfold resolveSegs
  rw [resolveSegs_aux segs [] h]
  rfl

theorem filterMiddle_concat (a : List Char) (mid : List (List Char))
    (z : List Char) :
    filterMiddle ((a :: mid) ++ [z]) =
      (a :: mid.filter fun s => s ≠ []) ++ [z] := by
  cases mid with
  | nil => rfl
  | cons m ms =>
    have hsh : (a :: m :: ms) ++ [z] = a :: m :: (ms ++ [z]) := rfl
    have hrw : m :: (ms ++ [z]) = (m :: ms) ++ [z] := rfl
    rw [hsh, filterMiddle, hrw, List.dropLast_concat, List.getLast?_concat]
    rfl

theorem pyJoin_chars {sep : Char} {pieces : List (List Char)} {c : Char}
    (h : c ∈ pyJoin sep pieces) : c = sep ∨ ∃ x ∈ pieces, c ∈ x := by
  induction pieces with
  | nil => exact absurd h (by simp [pyJoin])
  | cons x xs ih =>
    cases xs with
    | nil => exact Or.inr ⟨x, List.mem_cons_self _ _, h⟩
    | cons y ys =>
      rw [pyJoin_cons₂] at h
      rcases List.mem_append.mp h with h1 | h2
      · exact Or.inr ⟨x, List.mem_cons_self _ _, h1⟩
      · rcases List.mem_cons.mp h2 with h3 | h4
        · exact Or.inl h3
        · rcases ih h4 with h5 | ⟨z, hz, hc⟩
          · exact Or.inl h5
          · exact Or.inr ⟨z, List.mem_cons_of_mem x hz, hc⟩

/-- Characters that pass through the URL machinery untouched. -/
def plainChar (c : Char) : Prop :=
  ¬ isUnsafeURLByte c ∧ c ≠ ':' ∧ c ≠ '#' ∧ c ≠ '?' ∧ c ≠ ';' ∧ c ≠ '/'

theorem digit_plain {c : Char} (h : pyDigit c) : plainChar c :=
  ⟨digit_not_removed h,
   fun hh => absurd (hh ▸ h) (by decide), fun hh => absurd (hh ▸ h) (by decide),
   fun hh => absurd (hh ▸ h) (by decide), fun hh => absurd (hh ▸ h) (by decide),
   fun hh => absurd (hh ▸ h) (by decide)⟩

theorem safe_plain {c : Char} (h : urlSafeChar c) : plainChar c :=
  ⟨safe_not_removed h, h.2.1, h.2.2.2.2.1, h.2.2.2.1, h.2.2.2.2.2, h.2.2.1⟩

theorem notColon_of_ne {c : Char} (h : c ≠ ':') : notColon c = true := by
  simp [notColon, bne_iff_ne]
  exact h

def hostStr : List Char := strL "ftp.ncbi.nlm.nih.gov"

/-- The path component the base URL splits into. -/
def bpathOf (t g : List Char) : List Char :=
  strL "/genomes/all/GCF/" ++ (t ++ '/' :: (g ++ ['/']))

/-- `urlsplit` of the base URL, for any tail `X` of plain-or-slash
characters standing for `<grouped>/<identifier>/`. -/
theorem urlsplitE_base_gen (X : List Char)
    (hXc : ∀ c ∈ X, plainChar c ∨ c = '/') :
    urlsplitE (strL "https://ftp.ncbi.nlm.nih.gov/genomes/all/GCF/" ++ X) [] =
      Except.ok ⟨strL "https", hostStr, strL "/genomes/all/GCF/" ++ X, [], []⟩ := by
  have hXunsafe : ∀ c ∈ X, (!isUnsafeURLByte c) = true := by
    intro c hc
    rcases hXc c hc with h | h
    · simp [h.1]
    · subst h; decide
  have hXhash : ∀ c ∈ X, c ≠ '#' := by
    intro c hc
    rcases hXc c hc with h | h
    · exact h.2.2.1
    · subst h; decide
  have hXqm : ∀ c ∈ X, c ≠ '?' := by
    intro c hc
    rcases hXc c hc with h | h
    · exact h.2.2.2.1
    · subst h; decide
  have hne : strL "https://ftp.ncbi.nlm.nih.gov/genomes/all/GCF/" ≠ ([] : List Char) := by
    decide
  have h1 : pyLstripC0 (strL "https://ftp.ncbi.nlm.nih.gov/genomes/all/GCF/" ++ X) =
      strL "https://ftp.ncbi.nlm.nih.gov/genomes/all/GCF/" ++ X :=
    dropWhile_of_head_neg (by rw [headD_append hne]; decide)
  have h2 : removeUnsafe (strL "https://ftp.ncbi.nlm.nih.gov/genomes/all/GCF/" ++ X) =
      strL "https://ftp.ncbi.nlm.nih.gov/genomes/all/GCF/" ++ X := by
    unfold removeUnsafe
    rw [List.filter_eq_self]
    intro a ha
    rcases List.mem_append.mp ha with h | h
    · have hlit : ∀ a ∈ strL "https://ftp.ncbi.nlm.nih.gov/genomes/all/GCF/",
          (!isUnsafeURLByte a) = true := by decide
      exact hlit a h
    · exact hXunsafe a h
  have hpre : (strL "https://ftp.ncbi.nlm.nih.gov/genomes/all/GCF/" ++ X).takeWhile
      notColon = strL "https" := by
    rw [takeWhile_append_stop X (by decide)]
    decide
  have h3 : ∀ dflt, schemeSplit dflt
      (strL "https://ftp.ncbi.nlm.nih.gov/genomes/all/GCF/" ++ X) =
      (strL "https", strL "//ftp.ncbi.nlm.nih.gov/genomes/all/GCF/" ++ X) := by
    intro dflt
    simp only [schemeSplit]
    rw [hpre]
    rw [if_pos ⟨by
        rw [List.length_append]
        exact Nat.lt_of_lt_of_le (by decide) (Nat.le_add_right _ _),
      by decide, by rw [headD_append hne]; decide, by decide⟩]
    rw [show (strL "https").map Char.toLower = strL "https" from by decide]
    rw [show (strL "https").length + 1 = 6 from rfl, drop_append_le (by decide)]
    rw [show (strL "https://ftp.ncbi.nlm.nih.gov/genomes/all/GCF/").drop 6 =
      strL "//ftp.ncbi.nlm.nih.gov/genomes/all/GCF/" from by decide]
  have h4 : netlocSplit (strL "//ftp.ncbi.nlm.nih.gov/genomes/all/GCF/" ++ X) =
      (hostStr, strL "/genomes/all/GCF/" ++ X) := by
    unfold netlocSplit
    rw [take_append_le (by decide),
      show (strL "//ftp.ncbi.nlm.nih.gov/genomes/all/GCF/").take 2 = ['/', '/']
        from by decide,
      if_pos rfl, drop_append_le (by decide),
      show (strL "//ftp.ncbi.nlm.nih.gov/genomes/all/GCF/").drop 2 =
        strL "ftp.ncbi.nlm.nih.gov/genomes/all/GCF/" from by decide,
      takeWhile_append_stop X (by decide), dropWhile_append_stop X (by decide),
      show (strL "ftp.ncbi.nlm.nih.gov/genomes/all/GCF/").takeWhile
        (fun c => !netDelim c) = hostStr from by decide,
      show (strL "ftp.ncbi.nlm.nih.gov/genomes/all/GCF/").dropWhile
        (fun c => !netDelim c) = strL "/genomes/all/GCF/" from by decide]
  have h5 : (strL "/genomes/all/GCF/" ++ X).contains '#' = false := by
    apply contains_eq_false
    intro a ha
    rcases List.mem_append.mp ha with h | h
    · have hlit : ∀ a ∈ strL "/genomes/all/GCF/", a ≠ '#' := by decide
      exact hlit a h
    · exact hXhash a h
  have h6 : fragSplit (strL "/genomes/all/GCF/" ++ X) =
      (strL "/genomes/all/GCF/" ++ X, []) := by
    unfold fragSplit
    rw [h5]
    simp
  have h7 : (strL "/genomes/all/GCF/" ++ X).contains '?' = false := by
    apply contains_eq_false
    intro a ha
    rcases List.mem_append.mp ha with h | h
    · have hlit : ∀ a ∈ strL "/genomes/all/GCF/", a ≠ '?' := by decide
      exact hlit a h
    · exact hXqm a h
  have h8 : querySplit (strL "/genomes/all/GCF/" ++ X) =
      (strL "/genomes/all/GCF/" ++ X, []) := by
    unfold querySplit
    rw [h7]
    simp
  simp only [urlsplitE, h1, h2, h3, h4, h6, h8]
  rw [if_neg (by decide), if_neg (by decide), if_neg (by decide)]

/-- `urlsplit` of the relative reference `<identifier>_genomic.gbff.gz` for a
URL-safe identifier: no scheme, no netloc, the whole string is the path. -/
theorem urlsplitE_rel (g : List Char) (hg : ∀ c ∈ g, urlSafeChar c)
    (hgne : g ≠ []) :
    urlsplitE (g ++ strL "_genomic.gbff.gz") (strL "https") =
      Except.ok ⟨strL "https", [], g ++ strL "_genomic.gbff.gz", [], []⟩ := by
  obtain ⟨c, g', rfl⟩ : ∃ c g', g = c :: g' := by
    cases g with
    | nil => exact absurd rfl hgne
    | cons c g' => exact ⟨c, g', rfl⟩
  have hc : urlSafeChar c := hg c (List.mem_cons_self _ _)
  have hsh : (c :: g') ++ strL "_genomic.gbff.gz" =
      c :: (g' ++ strL "_genomic.gbff.gz") := rfl
  have h1 : pyLstripC0 ((c :: g') ++ strL "_genomic.gbff.gz") =
      (c :: g') ++ strL "_genomic.gbff.gz" := by
    rw [hsh]
    exact dropWhile_cons_neg (safe_not_c0 hc)
  have h2 : removeUnsafe ((c :: g') ++ strL "_genomic.gbff.gz") =
      (c :: g') ++ strL "_genomic.gbff.gz" := by
    unfold removeUnsafe
    rw [List.filter_eq_self]
    intro a ha
    rcases List.mem_append.mp ha with h | h
    · simp [safe_not_removed (hg a h)]
    · have hlit : ∀ a ∈ strL "_genomic.gbff.gz", (!isUnsafeURLByte a) = true := by
        decide
      exact hlit a h
  have hpre : ((c :: g') ++ strL "_genomic.gbff.gz").takeWhile notColon =
      (c :: g') ++ strL "_genomic.gbff.gz" := by
    apply takeWhile_all
    intro a ha
    rcases List.mem_append.mp ha with h | h
    · exact notColon_of_ne (hg a h).2.1
    · have hlit : ∀ a ∈ strL "_genomic.gbff.gz", notColon a = true := by decide
      exact hlit a h
  have h3 : schemeSplit (strL "https") ((c :: g') ++ strL "_genomic.gbff.gz") =
      (strL "https", (c :: g') ++ strL "_genomic.gbff.gz") := by
    simp only [schemeSplit]
    rw [hpre]
    rw [if_neg fun hcond => absurd hcond.1 (lt_irrefl _)]
  have h4 : netlocSplit ((c :: g') ++ strL "_genomic.gbff.gz") =
      ([], (c :: g') ++ strL "_genomic.gbff.gz") := by
    unfold netlocSplit
    rw [if_neg (by rw [hsh]; exact take_two_ne_slashes _ hc.2.2.1)]
  have h5 : ((c :: g') ++ strL "_genomic.gbff.gz").contains '#' = false := by
    apply contains_eq_false
    intro a ha
    rcases List.mem_append.mp ha with h | h
    · exact (hg a h).2.2.2.2.1
    · have hlit : ∀ a ∈ strL "_genomic.gbff.gz", a ≠ '#' := by decide
      exact hlit a h
  have h6 : fragSplit ((c :: g') ++ strL "_genomic.gbff.gz") =
      ((c :: g') ++ strL "_genomic.gbff.gz", []) := by
    unfold fragSplit
    rw [h5]
    simp
  have h7 : ((c :: g') ++ strL "_genomic.gbff.gz").contains '?' = false := by
    apply contains_eq_false
    intro a ha
    rcases List.mem_append.mp ha with h | h
    · exact (hg a h).2.2.2.1
    · have hlit : ∀ a ∈ strL "_genomic.gbff.gz", a ≠ '?' := by decide
      exact hlit a h
  have h8 : querySplit ((c :: g') ++ strL "_genomic.gbff.gz") =
      ((c :: g') ++ strL "_genomic.gbff.gz", []) := by
    unfold querySplit
    rw [h7]
    simp
  have hdef : removeUnsafe (stripBy isC0OrSpace (strL "https")) = strL "https" := by
    decide
  simp only [urlsplitE, h1, h2, hdef, h3, h4, h6, h8]
  rw [if_neg (by simp), if_neg (by simp)]
  rfl

/-- `urlparse` of the base URL. -/
theorem urlparseE_base_gen (X : List Char)
    (hXc : ∀ c ∈ X, plainChar c ∨ c = '/') :
    urlparseE (strL "https://ftp.ncbi.nlm.nih.gov/genomes/all/GCF/" ++ X) [] =
      Except.ok ⟨strL "https", hostStr, strL "/genomes/all/GCF/" ++ X, [], [], []⟩ := by
  unfold urlparseE
  rw [urlsplitE_base_gen X hXc]
  have hs1 : ';' ∉ strL "/genomes/all/GCF/" := by decide
  have hs2 : ';' ∉ X := by
    intro h
    rcases hXc ';' h with hp | hp
    · exact hp.2.2.2.2.1 rfl
    · exact absurd hp (by decide)
  simp [hs1, hs2]

/-- `urlparse` of the relative reference. -/
theorem urlparseE_rel (g : List Char) (hg : ∀ c ∈ g, urlSafeChar c)
    (hgne : g ≠ []) :
    urlparseE (g ++ strL "_genomic.gbff.gz") (strL "https") =
      Except.ok ⟨strL "https", [], g ++ strL "_genomic.gbff.gz", [], [], []⟩ := by
  unfold urlparseE
  rw [urlsplitE_rel g hg hgne]
  have hs1 : ';' ∉ g := fun h => (hg ';' h).2.2.2.2.2 rfl
  have hs2 : ';' ∉ strL "_genomic.gbff.gz" := by decide
  simp [hs1, hs2]

/-- `urlunsplit` for the https scheme, the fixed host, and an absolute path:
plain reassembly. -/
theorem urlunparse_host_abs (path : List Char) (hp : path.take 1 = ['/']) :
    urlunparse ⟨strL "https", hostStr, path, [], [], []⟩ =
      strL "https" ++ ':' :: '/' :: '/' :: (hostStr ++ path) := by
  unfold urlunparse
  dsimp only
  rw [if_neg (by simp)]
  unfold urlunsplit
  dsimp only
  rw [if_neg (by simp), if_neg (by simp), if_pos (by decide),
    if_pos (Or.inl (by decide)), if_neg (fun h => h.2 hp)]

/-- For a parser-accepted identifier of URL-safe characters, `urljoin`
produces exactly the template URL. -/
theorem genome_url_template (g t : List Char) (hpt : extract_triplets g = some t)
    (hsafe : ∀ c ∈ g, urlSafeChar c) :
    genome_url_of g t = Except.ok (templateURL g t) := by
  obtain ⟨tris, htris, htne, hpieces, hglen⟩ := extract_triplets_some hpt
  have hgne : g ≠ [] := by
    intro h
    rw [h] at hglen
    exact absurd hglen (by decide)
  obtain ⟨c0, g', hgsh⟩ : ∃ c0 g', g = c0 :: g' := by
    cases g with
    | nil => exact absurd rfl hgne
    | cons a b => exact ⟨a, b, rfl⟩
  have hc0 : urlSafeChar c0 := hsafe c0 (by rw [hgsh]; exact List.mem_cons_self _ _)
  obtain ⟨x0, xs0, htrissh⟩ : ∃ x0 xs0, tris = x0 :: xs0 := by
    cases tris with
    | nil => exact absurd rfl htne
    | cons a b => exact ⟨a, b, rfl⟩
  have htc : ∀ c ∈ t, pyDigit c ∨ c = '/' := by
    intro c hc
    rw [htris] at hc
    rcases pyJoin_chars hc with h | ⟨x, hx, hcx⟩
    · exact Or.inr h
    · exact Or.inl ((hpieces x hx).2 c hcx)
  have hXc : ∀ c ∈ (t ++ '/' :: (g ++ ['/'])), plainChar c ∨ c = '/' := by
    intro c hc
    simp only [List.mem_append, List.mem_cons] at hc
    rcases hc with h | h | h | h
    · rcases htc c h with hd | hd
      · exact Or.inl (digit_plain hd)
      · exact Or.inr hd
    · exact Or.inr h
    · exact Or.inl (safe_plain (hsafe c h))
    · simp at h
      exact Or.inr h
  have hb : base_url_of t g =
      strL "https://ftp.ncbi.nlm.nih.gov/genomes/all/GCF/" ++
        (t ++ '/' :: (g ++ ['/'])) := by
    simp [base_url_of]
  have hbase_ne : base_url_of t g ≠ [] := by
    rw [hb]
    intro h
    exact absurd (List.append_eq_nil.mp h).1 (by decide)
  have hgz : genome_gz_file_of g = g ++ strL "_genomic.gbff.gz" := by
    show (g ++ strL "_genomic.gbff") ++ strL ".gz" = _
    rw [List.append_assoc]
    congr 1
  have hrel_ne : genome_gz_file_of g ≠ [] := by
    rw [hgz, hgsh]
    simp
  have hpb : urlparseE (base_url_of t g) [] =
      Except.ok ⟨strL "https", hostStr,
        strL "/genomes/all/GCF/" ++ (t ++ '/' :: (g ++ ['/'])), [], [], []⟩ := by
    rw [hb]
    exact urlparseE_base_gen _ hXc
  have hpr : urlparseE (genome_gz_file_of g) (strL "https") =
      Except.ok ⟨strL "https", [], g ++ strL "_genomic.gbff.gz", [], [], []⟩ := by
    rw [hgz]
    exact urlparseE_rel g hsafe hgne
  -- the split of the base path
  have hsplit_b : pySplit '/' (strL "/genomes/all/GCF/" ++ (t ++ '/' :: (g ++ ['/']))) =
      [] :: strL "genomes" :: strL "all" :: strL "GCF" :: (tris ++ [g, []]) := by
    have hshape : strL "/genomes/all/GCF/" ++ (t ++ '/' :: (g ++ ['/'])) =
        '/' :: (strL "genomes" ++ '/' :: (strL "all" ++ '/' ::
          (strL "GCF" ++ '/' :: (t ++ '/' :: (g ++ ['/']))))) := rfl
    rw [hshape, pySplit_cons_sep, pySplit_piece _ (by decide),
      pySplit_piece _ (by decide), pySplit_piece _ (by decide), htris, htrissh,
      pySplit_join _ (by
        intro y hy c hc
        exact digit_ne_slash ((hpieces y (by rw [htrissh]; exact hy)).2 c hc)),
      pySplit_piece [] (fun c hc => (hsafe c hc).2.2.1)]
    rfl
  have hlast_b : ([] :: strL "genomes" :: strL "all" :: strL "GCF" ::
      (tris ++ [g, []])).getLast? = some ([] : List Char) := by
    have hsh2 : [] :: strL "genomes" :: strL "all" :: strL "GCF" ::
        (tris ++ [g, []]) =
        ([] :: strL "genomes" :: strL "all" :: strL "GCF" :: (tris ++ [g])) ++
          [[]] := by
      simp
    rw [hsh2, List.getLast?_concat]
  have hpath_take : (g ++ strL "_genomic.gbff.gz").take 1 ≠ ['/'] := by
    rw [hgsh]
    intro h
    have h1 : ((c0 :: g') ++ strL "_genomic.gbff.gz").take 1 = [c0] := rfl
    rw [h1] at h
    injection h with h2 _
    exact hc0.2.2.1 h2
  have hsplit_r : pySplit '/' (g ++ strL "_genomic.gbff.gz") =
      [g ++ strL "_genomic.gbff.gz"] := by
    apply pySplit_sepfree
    intro a ha
    rcases List.mem_append.mp ha with h | h
    · exact (hsafe a h).2.2.1
    · have hlit : ∀ a ∈ strL "_genomic.gbff.gz", a ≠ '/' := by decide
      exact hlit a h
  have hrellen : 3 ≤ (g ++ strL "_genomic.gbff.gz").length := by
    rw [List.length_append]
    have h16 : (strL "_genomic.gbff.gz").length = 16 := rfl
    omega
  -- the filter of the interior segments
  have hfilter : (strL "genomes" :: strL "all" :: strL "GCF" ::
      (tris ++ [g, []])).filter (fun s => s ≠ []) =
      strL "genomes" :: strL "all" :: strL "GCF" :: (tris ++ [g]) := by
    rw [show strL "genomes" :: strL "all" :: strL "GCF" :: (tris ++ [g, []]) =
        [strL "genomes", strL "all", strL "GCF"] ++ (tris ++ [g, []]) from rfl,
      List.filter_append, List.filter_append,
      show (([strL "genomes", strL "all", strL "GCF"] : List (List Char)).filter
        (fun s => s ≠ [])) = [strL "genomes", strL "all", strL "GCF"] from by decide,
      List.filter_eq_self.mpr (fun x hx => by simpa using (hpieces x hx).1),
      show (([g, []] : List (List Char)).filter (fun s => s ≠ [])) = [g] from by
        simp [hgne]]
    rfl
  -- the resolution of the joined path
  have hjr : joinResolve (strL "/genomes/all/GCF/" ++ (t ++ '/' :: (g ++ ['/'])))
      (g ++ strL "_genomic.gbff.gz") =
      strL "/genomes/all/GCF" ++ '/' :: (t ++ '/' ::
        (g ++ '/' :: (g ++ strL "_genomic.gbff.gz"))) := by
    unfold joinResolve
    rw [hsplit_b]
    dsimp only
    rw [if_pos hlast_b, if_neg hpath_take, hsplit_r, filterMiddle_concat, hfilter]
    have hmem : ∀ s ∈ ([] :: strL "genomes" :: strL "all" :: strL "GCF" ::
        (tris ++ [g])) ++ [g ++ strL "_genomic.gbff.gz"],
        s ≠ strL ".." ∧ s ≠ strL "." := by
      intro s hs
      simp only [List.mem_cons, List.mem_append, List.mem_nil_iff, or_false] at hs
      rcases hs with (h | h | h | h | h | h) | h
      · subst h; exact ⟨by decide, by decide⟩
      · subst h; exact ⟨by decide, by decide⟩
      · subst h; exact ⟨by decide, by decide⟩
      · subst h; exact ⟨by decide, by decide⟩
      · have hdots := digits_ne_dots (hpieces s h).2
        exact ⟨hdots.2, hdots.1⟩
      · rw [h]
        have hdots := long_ne_dots (show 3 ≤ g.length by omega)
        exact ⟨hdots.2, hdots.1⟩
      · rw [h]
        have hdots := long_ne_dots hrellen
        exact ⟨hdots.2, hdots.1⟩
    rw [resolveSegs_no_dots hmem]
    have hlast_s : (([] :: strL "genomes" :: strL "all" :: strL "GCF" ::
        (tris ++ [g])) ++ [g ++ strL "_genomic.gbff.gz"]).getLast? =
        some (g ++ strL "_genomic.gbff.gz") := List.getLast?_concat _
    have hdotscond : ¬ (((([] : List Char) :: strL "genomes" :: strL "all" ::
        strL "GCF" :: (tris ++ [g])) ++ [g ++ strL "_genomic.gbff.gz"]).getLast? =
          some (strL ".") ∨
        ((([] : List Char) :: strL "genomes" :: strL "all" :: strL "GCF" ::
          (tris ++ [g])) ++ [g ++ strL "_genomic.gbff.gz"]).getLast? =
          some (strL "..")) := by
      rw [hlast_s]
      rintro (h | h)
      · injection h with h1
        exact (long_ne_dots hrellen).1 h1
      · injection h with h1
        exact (long_ne_dots hrellen).2 h1
    rw [if_neg hdotscond]
    have hjoin : pyJoin '/' (([] :: strL "genomes" :: strL "all" :: strL "GCF" ::
        (tris ++ [g])) ++ [g ++ strL "_genomic.gbff.gz"]) =
        strL "/genomes/all/GCF" ++ '/' :: (t ++ '/' ::
          (g ++ '/' :: (g ++ strL "_genomic.gbff.gz"))) := by
      rw [show ([] :: strL "genomes" :: strL "all" :: strL "GCF" ::
          (tris ++ [g])) ++ [g ++ strL "_genomic.gbff.gz"] =
          (([[], strL "genomes", strL "all", strL "GCF"] : List (List Char)) ++
            (x0 :: (xs0 ++ [g, g ++ strL "_genomic.gbff.gz"]))) from by
          rw [htrissh]; simp,
        pyJoin_append,
        show pyJoin '/' ([[], strL "genomes", strL "all", strL "GCF"] :
          List (List Char)) = strL "/genomes/all/GCF" from by decide,
        show x0 :: (xs0 ++ [g, g ++ strL "_genomic.gbff.gz"]) =
          (x0 :: xs0) ++ (g :: [g ++ strL "_genomic.gbff.gz"]) from by simp,
        pyJoin_append, ← htrissh, ← htris]
      rfl
    rw [hjoin, if_neg (fun h => absurd (List.append_eq_nil.mp h).1 (by decide))]
  -- now unfold the join
  unfold genome_url_of urljoinE
  rw [if_neg hbase_ne, if_neg hrel_ne, hpb]
  dsimp only
  rw [hpr]
  dsimp only
  rw [if_neg (show ¬ (strL "https" ≠ strL "https" ∨
      ¬ usesRelative.contains (strL "https") = true) from by decide),
    if_neg (show ¬ (usesNetloc.contains (strL "https") = true ∧
      ([] : List Char) ≠ []) from by decide),
    if_pos (show usesNetloc.contains (strL "https") = true from by decide),
    if_neg (show ¬ (g ++ strL "_genomic.gbff.gz" = [] ∧ ([] : List Char) = [])
      from fun h => absurd (List.append_eq_nil.mp h.1).2 (by decide))]
  rw [hjr]
  rw [urlunparse_host_abs (strL "/genomes/all/GCF" ++ '/' :: (t ++ '/' ::
    (g ++ '/' :: (g ++ strL "_genomic.gbff.gz")))) rfl]
  show Except.ok _ = Except.ok (templateURL g t)
  rw [show templateURL g t =
    strL "https://ftp.ncbi.nlm.nih.gov/genomes/all/GCF/" ++
      (t ++ '/' :: (g ++ '/' :: (g ++ strL "_genomic.gbff.gz"))) from by
    simp [templateURL]]
  rfl

/-- Claim C2, corrected: the claim ranges over every identifier the parser
accepts, but the parser also accepts identifiers that embed a URL scheme,
and for those `urljoin` discards the base entirely: for
`http://e/GCF_123.4` both the HEAD and the GET go to
`http://e/GCF_123.4_genomic.gbff.gz`, not to the template URL. -/
theorem c2_counterexample :
    extract_triplets gHijack = some (strL "123") ∧
    Event.headReq uHijack ∈ (download_genome w0 gHijack dirDL fs0).2.1 ∧
    Event.getReq uHijack ∈ (download_genome w0 gHijack dirDL fs0).2.1 ∧
    uHijack ≠ templateURL gHijack (strL "123") := by
  decide

/-- Claim C2 (amended to identifiers whose characters are URL-safe: above
the control/space range and none of `:`, `/`, `?`, `#`, `;`): the remote URL
used for both the existence check and the download equals the deterministic
template
`https://ftp.ncbi.nlm.nih.gov/genomes/all/GCF/<grouped>/<id>/<id>_genomic.gbff.gz`:
`urljoin` returns exactly the template, and every HEAD or GET event of
`download_genome` carries that URL. -/
theorem c2_url_template (g t : List Char) (hpt : extract_triplets g = some t)
    (hsafe : ∀ c ∈ g, urlSafeChar c) :
    genome_url_of g t = Except.ok (templateURL g t) ∧
    ∀ (w : World) (d : List Char) (fs : FS) (url : List Char),
      (Event.headReq url ∈ (download_genome w g d fs).2.1 ∨
       Event.getReq url ∈ (download_genome w g d fs).2.1) →
      url = templateURL g t := by
  have hmain := genome_url_template g t hpt hsafe
  refine ⟨hmain, ?_⟩
  intro w d fs url hmem
  by_cases hex : (fs.files (gz_path d g)).isSome ∨ (fs.files (gbff_path d g)).isSome
  · rw [download_genome_exists hpt hex] at hmem
    rcases hmem with h | h <;> simp at h
  · push_neg at hex
    have hgz := Option.not_isSome_iff_eq_none.mp hex.1
    have hgb := Option.not_isSome_iff_eq_none.mp hex.2
    by_cases hst : w.headStatus (templateURL g t) = 200
    · cases hget : w.getOutcome (templateURL g t) with
      | success chunks =>
        rw [download_genome_success hpt hgz hgb hmain hst hget] at hmem
        rcases hmem with h | h <;> simpa using h
      | httpError code =>
        have h2 := download_genome_getfail hpt hgz hgb hmain hst
          (Or.inl ⟨code, hget⟩)
        rw [congrArg Prod.fst h2] at hmem
        rcases hmem with h | h <;> simpa using h
      | midStreamFailure parts =>
        have h2 := download_genome_getfail hpt hgz hgb hmain hst
          (Or.inr ⟨parts, hget⟩)
        rw [congrArg Prod.fst h2] at hmem
        rcases hmem with h | h <;> simpa using h
    · rw [download_genome_notfound hpt hgz hgb hmain hst] at hmem
      rcases hmem with h | h
      · simpa using h
      · simp at h

/-- Witness for C2 at `GCF_000005845.2`. -/
theorem c2_url_template_witness :
    genome_url_of gMain tMain = Except.ok (templateURL gMain tMain) ∧
    uMain = templateURL gMain tMain :=
  ⟨(c2_url_template gMain tMain (by decide) (by decide)).1,
   (c2_url_template gMain tMain (by decide) (by decide)).2 w0 dirDL fs0 uMain
     (Or.inl (by decide))⟩

end GCFD
